import Mathlib

/-!
The token bucket and the single-threaded limiter of redis-ratelimit.

A shallow embedding of `tokenbucket.go`, `limiter.go` and `redis_ratelimit.go`.

Conventions of the embedding

* `float64` values are read as exact rationals (`ℚ`); a division by a zero
  `Duration` (an IEEE infinity or NaN in Go) lies outside that reading and takes
  the value of `ℚ`'s division.
* `time.Time` is an integer count of nanoseconds since the Unix epoch,
  `time.Duration` an integer count of nanoseconds.
* Every call of `time.Now()` is a parameter of the function that makes the call.
* A method with a pointer receiver returns the receiver next to its result.
-/

namespace RedisRatelimit

/-! ## Time -/

/-- Nanoseconds, as in Go's `time.Duration` (an `int64`). -/
abbrev Duration := Int

/-- An instant: nanoseconds since the Unix epoch. -/
abbrev Time := Int

/-- Largest value of `time.Duration`, `1<<63 - 1`. -/
def maxDuration : Duration := 9223372036854775807

/-- Smallest value of `time.Duration`, `-1 << 63`. -/
def minDuration : Duration := -9223372036854775808

/-- Nanoseconds in a second (`time.Second`). -/
def Second : Duration := 1000000000

/-- Go's `Time.Unix`: whole seconds since the epoch, rounded down. -/
def Time.Unix (t : Time) : Int := t / 1000000000

/-- Go's `Time.Sub`: the duration `t - u`, saturated at the bounds of
`time.Duration` when the difference does not fit. -/
def Time.Sub (t u : Time) : Duration :=
  if t - u < minDuration then minDuration
  else if maxDuration < t - u then maxDuration
  else t - u

/-! ## Errors -/

/-- Error values: the package's sentinels, `redis.ErrNil` of the storage
package, errors made on the spot by `errors.New`, and any other error a store
call reports. Sentinels are compared by identity, hence one constructor each. -/
inductive Error where
  | ErrLimitReached
  | ErrNotFound
  | ErrKeyEmpty
  | ErrCountZero
  | ErrLimitZero
  | ErrCountLimit
  | ErrZeroDuration
  | ErrNil
  | errorsNew (msg : String)
  | storage (msg : String)
  deriving DecidableEq, Repr

/-! ## tokenbucket.go -/

/-- The Go struct `TokenBucket`. -/
structure TokenBucket where
  Used : ℚ
  LastAccessTime : Time
  Limit : ℚ
  Duration : Duration
  deriving DecidableEq

/-- Go's `NewTokenBucket`; `now` is the reading of `time.Now()`. -/
def NewTokenBucket (limit : ℚ) (duration : Duration) (now : Time) : TokenBucket :=
  ⟨0, now, limit, duration⟩

/-- Go's `(*TokenBucket).GetAdjustedUsage`: the returned usage, and the
receiver as the call leaves it. -/
def TokenBucket.GetAdjustedUsage (bucket : TokenBucket) (now : Time) : ℚ × TokenBucket :=
  let used := bucket.Used
  if bucket.LastAccessTime.Unix > 0 then
    let elapsed := now.Sub bucket.LastAccessTime
    let back := bucket.Limit * (elapsed : ℚ) / (bucket.Duration : ℚ)
    let used := used - back
    if used < 0 then (0, bucket) else (used, bucket)
  else (used, bucket)

/-- Go's `(*TokenBucket).Consume`; `now` is the reading of `time.Now()` made
by the call. Returns the error (`none` for `nil`) and the receiver afterwards. -/
def TokenBucket.Consume (bucket : TokenBucket) (count : ℚ) (now : Time) :
    Option Error × TokenBucket :=
  let (used, bucket) := bucket.GetAdjustedUsage now
  if used + count ≤ bucket.Limit then
    let bucket := { bucket with Used := used + count }
    let bucket := { bucket with LastAccessTime := now }
    (none, bucket)
  else
    (some Error.ErrLimitReached, bucket)

/-! ## limiter.go -/

/-- Go's `unicode.IsSpace`: the Latin-1 spaces and the code points with the
Unicode White_Space property. -/
def IsSpace (r : Char) : Bool :=
  let n := r.toNat
  if n ≤ 255 then
    n = 9 || n = 10 || n = 11 || n = 12 || n = 13 || n = 32 || n = 133 || n = 160
  else
    n = 5760 || (8192 ≤ n && n ≤ 8202) || n = 8232 || n = 8233 || n = 8239 ||
      n = 8287 || n = 12288

/-- Go's `strings.TrimSpace`: leading and trailing white space removed. -/
def TrimSpace (s : String) : String :=
  ⟨(s.data.dropWhile IsSpace).rdropWhile IsSpace⟩

/-- Go's `checkPostArgs`: the `switch true` returns at the first case that holds.
Go's `len` counts bytes and `String.length` characters; each is zero for the
empty string only. -/
def checkPostArgs (key : String) (count limit : Int) (duration : Duration) : Option Error :=
  if (TrimSpace key).length = 0 then some Error.ErrKeyEmpty
  else if count ≤ 0 then some Error.ErrCountZero
  else if limit ≤ 0 then some Error.ErrLimitZero
  else if count > limit then some Error.ErrCountLimit
  else if duration = 0 then some Error.ErrZeroDuration
  else none

/-- The Go struct `response`. -/
structure response where
  used : Int
  err : Option Error
  deriving DecidableEq

/-- Method code `GET`. -/
def GET : Int := 0

/-- Method code `POST`. -/
def POST : Int := 1

/-- Method code `DELETE`. -/
def DELETE : Int := 2

/-- The Go struct `request`. Its `response` channel carries exactly one
response, recorded here as the `sent` field of the step that serves it. -/
structure request where
  method : Int
  key : String
  count : Int
  limit : Int
  duration : Duration
  deriving DecidableEq

/-- Go's `usage`: `int64(math.Ceil(f))`. -/
def usage (f : ℚ) : Int := ⌈f⌉

/-- What the store holds under a key, seen through `encoding/gob`: the
encoding of a bucket, or bytes the decoder rejects with the given error. -/
inductive Data where
  | gob (b : TokenBucket)
  | malformed (e : Error)
  deriving DecidableEq

/-- Result of `gob.Decoder.Decode` into a `TokenBucket`. -/
def gobDecode : Data → Except Error TokenBucket
  | Data.gob b => Except.ok b
  | Data.malformed e => Except.error e

/-- The three methods of `redis.RedisStorage` that the limiter calls, over a
store state `σ`. The type lives in another package; it is taken as a parameter.
`Get` returns `(data, err)` and leaves what is stored as it is; `Setex` and
`Delete` return their error and the store afterwards. -/
structure RedisStorage (σ : Type) where
  Get : σ → String → Option Data × Option Error
  Setex : σ → String → TokenBucket → Duration → Option Error × σ
  Delete : σ → String → Option Error × σ

/-- Go's `(*SingleThreadLimiter).GetTokenBucket`. -/
def GetTokenBucket {σ : Type} (S : RedisStorage σ) (st : σ) (key : String) :
    Option TokenBucket × Option Error :=
  let (data, err) := S.Get st key
  if err ≠ none then (none, err)
  else
    match data with
    | none => (none, none)
    | some d =>
      match gobDecode d with
      | Except.error e => (none, some e)
      | Except.ok result => (some result, none)

/-- A call made on the store. -/
inductive StoreCall where
  | Get (key : String)
  | Setex (key : String) (value : TokenBucket) (expiry : Duration)
  | Delete (key : String)
  deriving DecidableEq

/-- How a Go statement ends: normally, by an unlabelled `break`, by
`continue`, or in a run-time panic. -/
inductive Signal where
  | normal
  | brk
  | cont
  | panicked
  deriving DecidableEq

/-- A `switch` or `select` statement is where an unlabelled `break` inside it
ends; every other signal passes through. -/
def Signal.leaveBreakable : Signal → Signal
  | Signal.brk => Signal.normal
  | s => s

/-- What serving one request does: the store afterwards, the response sent on
the request's channel (if one is sent), the store calls made, in order, and how
the `case` body ends. -/
structure Step (σ : Type) where
  storage : σ
  sent : Option response
  calls : List StoreCall
  signal : Signal

/-- The bucket the POST branch consumes from (the `if bucket == nil` block):
the stored bucket when its `Limit` and `Duration` are the request's, a new one
otherwise. `tNew` is the clock reading of `NewTokenBucket`. -/
def postBucket (bucket : Option TokenBucket) (limit : ℚ) (duration : Duration)
    (tNew : Time) : TokenBucket :=
  match bucket with
  | none => NewTokenBucket limit duration tNew
  | some b =>
    if b.Limit ≠ limit ∨ b.Duration ≠ duration then NewTokenBucket limit duration tNew
    else b

/-- The `case POST:` body of `serve`. -/
def servePOST {σ : Type} (S : RedisStorage σ) (st : σ) (req : request)
    (tNew now : Time) : Step σ :=
  let (bucket, err) := GetTokenBucket S st req.key
  if err ≠ none ∧ err ≠ some Error.ErrNil then
    ⟨st, some ⟨0, err⟩, [StoreCall.Get req.key], Signal.cont⟩
  else
    let count : ℚ := (req.count : ℚ)
    let limit : ℚ := (req.limit : ℚ)
    let duration := req.duration
    let bucket := postBucket bucket limit duration tNew
    let (err, bucket) := bucket.Consume count now
    if err ≠ none then
      ⟨st, some ⟨usage bucket.Used, err⟩, [StoreCall.Get req.key], Signal.cont⟩
    else
      let (err, st1) := S.Setex st req.key bucket duration
      if err ≠ none then
        ⟨st1, some ⟨0, err⟩,
          [StoreCall.Get req.key, StoreCall.Setex req.key bucket duration], Signal.cont⟩
      else
        ⟨st1, some ⟨usage bucket.Used, none⟩,
          [StoreCall.Get req.key, StoreCall.Setex req.key bucket duration], Signal.normal⟩

/-- The `case GET:` body of `serve`; `now` is its clock reading. With a nil
bucket and a nil error the method call dereferences a nil pointer. -/
def serveGET {σ : Type} (S : RedisStorage σ) (st : σ) (req : request) (now : Time) : Step σ :=
  let (bucket, err) := GetTokenBucket S st req.key
  if err ≠ none then
    ⟨st, some ⟨0, err⟩, [StoreCall.Get req.key], Signal.cont⟩
  else
    match bucket with
    | none => ⟨st, none, [StoreCall.Get req.key], Signal.panicked⟩
    | some b =>
      ⟨st, some ⟨usage (b.GetAdjustedUsage now).1, none⟩, [StoreCall.Get req.key],
        Signal.normal⟩

/-- The `case DELETE:` body of `serve`. -/
def serveDELETE {σ : Type} (S : RedisStorage σ) (st : σ) (req : request) : Step σ :=
  let (err, st1) := S.Delete st req.key
  ⟨st1, some ⟨0, err⟩, [StoreCall.Delete req.key], Signal.normal⟩

/-- The `switch req.method` statement of `serve`. -/
def serveRequest {σ : Type} (S : RedisStorage σ) (st : σ) (req : request)
    (tNew now : Time) : Step σ :=
  let s : Step σ :=
    if req.method = GET then serveGET S st req now
    else if req.method = DELETE then serveDELETE S st req
    else if req.method = POST then servePOST S st req tNew now
    else ⟨st, some ⟨0, some (Error.errorsNew "Undefined Method")⟩, [], Signal.cont⟩
  { s with signal := s.signal.leaveBreakable }

/-- Where the worker goroutine is: in its loop, out of it, or dead of a panic. -/
inductive Status where
  | Running
  | Stopped
  | Crashed
  deriving DecidableEq

/-- The worker: the store it owns, its status, and the record of the
responses it has sent and the store calls it has made, oldest first. -/
structure Worker (σ : Type) where
  storage : σ
  status : Status
  replies : List (request × response)
  calls : List StoreCall

/-- What a `select` of `serve` receives: a value on `stopChan`, or a request
on `reqChan` together with the clock readings taken while it is served. -/
inductive Event where
  | stop
  | recv (req : request) (tNew now : Time)

/-- The body of the `case` that the `select` of `serve` runs for an event. -/
def caseBody {σ : Type} (S : RedisStorage σ) (w : Worker σ) : Event → Worker σ × Signal
  | Event.stop => (w, Signal.brk)
  | Event.recv req tNew now =>
    let s := serveRequest S w.storage req tNew now
    let replies :=
      match s.sent with
      | some r => w.replies ++ [(req, r)]
      | none => w.replies
    (⟨s.storage, w.status, replies, w.calls ++ s.calls⟩, s.signal)

/-- The `select` statement of `serve`. -/
def selectStmt {σ : Type} (S : RedisStorage σ) (w : Worker σ) (ev : Event) :
    Worker σ × Signal :=
  let (w1, sig) := caseBody S w ev
  (w1, sig.leaveBreakable)

/-- Go's `(*SingleThreadLimiter).serve` on the events it receives: the `for`
loop runs its body again after a normal end or a `continue`, is left by a
`break` that reaches it, and dies with a panic. When the events are used up
the worker waits in its `select`. -/
def serve {σ : Type} (S : RedisStorage σ) : List Event → Worker σ → Worker σ
  | [], w => w
  | ev :: evs, w =>
    match w.status with
    | Status.Running =>
      match selectStmt S w ev with
      | (w1, Signal.normal) => serve S evs w1
      | (w1, Signal.cont) => serve S evs w1
      | (w1, Signal.brk) => { w1 with status := Status.Stopped }
      | (w1, Signal.panicked) => { w1 with status := Status.Crashed }
    | _ => w

/-- The exchange `l.reqChan <- req; res := <-req.response` of the facade: the
response, or `none` when the caller waits for ever (no worker receives, or the
worker dies before it answers), and the worker afterwards. -/
def roundTrip {σ : Type} (S : RedisStorage σ) (w : Worker σ) (req : request)
    (tNew now : Time) : Option response × Worker σ :=
  match w.status with
  | Status.Running =>
    ((serveRequest S w.storage req tNew now).sent, serve S [Event.recv req tNew now] w)
  | _ => (none, w)

/-- Go's `(*SingleThreadLimiter).Post`. -/
def SingleThreadLimiter.Post {σ : Type} (S : RedisStorage σ) (w : Worker σ) (key : String)
    (count limit : Int) (duration : Duration) (tNew now : Time) :
    Option (Int × Option Error) × Worker σ :=
  match checkPostArgs key count limit duration with
  | some err => (some (0, some err), w)
  | none =>
    let req : request := ⟨POST, key, count, limit, duration⟩
    let (res, w1) := roundTrip S w req tNew now
    (res.map fun r => (r.used, r.err), w1)

/-- Go's `(*SingleThreadLimiter).Get`. -/
def SingleThreadLimiter.Get {σ : Type} (S : RedisStorage σ) (w : Worker σ) (key : String)
    (now : Time) : Option (Int × Option Error) × Worker σ :=
  let req : request := ⟨GET, key, 0, 0, 0⟩
  let (res, w1) := roundTrip S w req now now
  (res.map fun r => (r.used, r.err), w1)

/-- Go's `(*SingleThreadLimiter).Delete`. -/
def SingleThreadLimiter.Delete {σ : Type} (S : RedisStorage σ) (w : Worker σ) (key : String) :
    Option (Option Error) × Worker σ :=
  let req : request := ⟨DELETE, key, 0, 0, 0⟩
  let (res, w1) := roundTrip S w req 0 0
  (res.map fun r => r.err, w1)

/-! ## redis_ratelimit.go -/

/-- The Go struct `Ratelimit`: the configuration fixed at construction. -/
structure Ratelimit where
  limit : Int
  duration : Duration

/-- Go's `(*Ratelimit).Incr`. -/
def Ratelimit.Incr {σ : Type} (r : Ratelimit) (S : RedisStorage σ) (w : Worker σ)
    (key : String) (tNew now : Time) : Option (Int × Option Error) × Worker σ :=
  SingleThreadLimiter.Post S w key 1 r.limit r.duration tNew now

/-! ## A store in memory -/

/-- Content of the in-memory store: key, bucket and time to live. -/
abbrev MemStore := List (String × TokenBucket × Duration)

/-- Modelled from the spec: the store collaborator of section 6 (`get` gives
the bytes or not-found, `setWithExpiry` and `delete` give an error or nil),
here one whose calls never fail. Not-found is `redis.ErrNil`; the encoding gives
back the four fields exactly; expiry of entries is not enacted. -/
def memStorage : RedisStorage MemStore where
  Get st key :=
    match st.lookup key with
    | some (b, _) => (some (Data.gob b), none)
    | none => (none, some Error.ErrNil)
  Setex st key b ttl := (none, (key, b, ttl) :: st.filter fun e => e.1 ≠ key)
  Delete st key := (none, st.filter fun e => e.1 ≠ key)

/-- The in-memory store with its connection lost for writes: `Setex` reports
an error and stores nothing. -/
def brokenWrites : RedisStorage MemStore where
  Get := memStorage.Get
  Setex st _ _ _ := (some (Error.storage "connection refused"), st)
  Delete := memStorage.Delete

/-- The in-memory store with its connection lost altogether: every call
reports an error and the content stays as it is. -/
def brokenStore : RedisStorage MemStore where
  Get _ _ := (none, some (Error.storage "connection refused"))
  Setex st _ _ _ := (some (Error.storage "connection refused"), st)
  Delete st _ := (some (Error.storage "connection refused"), st)

/-- A store whose read hands back nil data and a nil error for every key, the
outcome that `GetTokenBucket` turns into `(nil, nil)`; writes and deletes are
those of the in-memory store. -/
def nilDataStore : RedisStorage MemStore where
  Get _ _ := (none, none)
  Setex := memStorage.Setex
  Delete := memStorage.Delete

/-- A bucket after a sequence of `Consume` calls, each given by its count and
the clock reading it makes. -/
def consumeAll (bucket : TokenBucket) : List (ℚ × Time) → TokenBucket
  | [] => bucket
  | (count, now) :: rest => consumeAll (bucket.Consume count now).2 rest

/-- A worker that has just been started on the given store. -/
def Worker.start {σ : Type} (st : σ) : Worker σ := ⟨st, Status.Running, [], []⟩

/-! ## Theorems -/

/-- The receiver of `GetAdjustedUsage` is only read. -/
theorem getAdjustedUsage_snd (b : TokenBucket) (now : Time) :
    (b.GetAdjustedUsage now).2 = b := by
  unfold TokenBucket.GetAdjustedUsage
  dsimp only
  split_ifs <;> rfl

/-- With `LastAccessTime` set, the adjusted usage is the decayed usage clamped at zero. -/
theorem getAdjustedUsage_set (b : TokenBucket) (now : Time) (h : 0 < b.LastAccessTime.Unix) :
    (b.GetAdjustedUsage now).1 =
      max 0 (b.Used - b.Limit * ((now.Sub b.LastAccessTime : Int) : ℚ) / (b.Duration : ℚ)) := by
  unfold TokenBucket.GetAdjustedUsage
  dsimp only
  rw [if_pos h]
  split_ifs with h1
  · exact (max_eq_left (le_of_lt h1)).symm
  · exact (max_eq_right (not_lt.mp h1)).symm

/-- With `LastAccessTime` not set, the adjusted usage is `Used`. -/
theorem getAdjustedUsage_unset (b : TokenBucket) (now : Time) (h : b.LastAccessTime.Unix ≤ 0) :
    (b.GetAdjustedUsage now).1 = b.Used := by
  unfold TokenBucket.GetAdjustedUsage
  dsimp only
  rw [if_neg (not_lt.mpr h)]

/-- A difference that fits in a `time.Duration` is what `Time.Sub` returns. -/
theorem sub_exact (t u : Time) (h1 : minDuration ≤ t - u) (h2 : t - u ≤ maxDuration) :
    t.Sub u = t - u := by
  unfold Time.Sub
  rw [if_neg (not_lt.mpr h1), if_neg (not_lt.mpr h2)]

/-- C1: for a bucket whose `LastAccessTime` is set (Unix seconds above zero),
`GetAdjustedUsage(now)` is `max(0, Used - Limit * (now - LastAccessTime) / Duration)`,
where `now - LastAccessTime` is the duration `now.Sub(LastAccessTime)`, which is the
exact difference whenever that fits in a `time.Duration`; for a bucket whose
`LastAccessTime` is not set it is `Used`; the bucket is not modified; and
`Used = 5`, `Limit = 10`, `Duration = 10s` at `LastAccessTime + 5s` gives 0. -/
theorem getAdjustedUsage_spec (b : TokenBucket) (now : Time) :
    (0 < b.LastAccessTime.Unix →
      (b.GetAdjustedUsage now).1 =
        max 0 (b.Used - b.Limit * ((now.Sub b.LastAccessTime : Int) : ℚ) / (b.Duration : ℚ))) ∧
    (0 < b.LastAccessTime.Unix → minDuration ≤ now - b.LastAccessTime →
      now - b.LastAccessTime ≤ maxDuration →
      (b.GetAdjustedUsage now).1 =
        max 0 (b.Used - b.Limit * ((now - b.LastAccessTime : Int) : ℚ) / (b.Duration : ℚ))) ∧
    (b.LastAccessTime.Unix ≤ 0 → (b.GetAdjustedUsage now).1 = b.Used) ∧
    (b.GetAdjustedUsage now).2 = b ∧
    (0 < b.LastAccessTime.Unix →
      (TokenBucket.GetAdjustedUsage ⟨5, b.LastAccessTime, 10, 10 * Second⟩
        (b.LastAccessTime + 5 * Second)).1 = 0) := by
  refine ⟨getAdjustedUsage_set b now, ?_, getAdjustedUsage_unset b now,
    getAdjustedUsage_snd b now, ?_⟩
  · intro h h1 h2
    rw [getAdjustedUsage_set b now h, sub_exact _ _ h1 h2]
  · intro h
    rw [getAdjustedUsage_set ⟨5, b.LastAccessTime, 10, 10 * Second⟩ _ h]
    have hs : Time.Sub (b.LastAccessTime + 5 * Second) b.LastAccessTime = 5 * Second := by
      rw [sub_exact] <;> simp [Second, minDuration, maxDuration]
    simp only [hs]
    norm_num [Second]

/-- C1 at a concrete bucket: `Used = 5`, `Limit = 10`, `Duration = 10s`, read
five seconds after a `LastAccessTime` of two seconds past the epoch. -/
theorem getAdjustedUsage_spec_witness :
    (0 : Int) < Time.Unix 2000000000 ∧
    (TokenBucket.GetAdjustedUsage ⟨5, 2000000000, 10, 10000000000⟩ 7000000000).1 = 0 ∧
    (TokenBucket.GetAdjustedUsage ⟨5, 2000000000, 10, 10000000000⟩ 7000000000).2 =
      ⟨5, 2000000000, 10, 10000000000⟩ := by
  have hu : (0 : Int) < Time.Unix 2000000000 := by decide
  have h := getAdjustedUsage_spec ⟨5, 2000000000, 10, 10000000000⟩ 7000000000
  refine ⟨hu, ?_, h.2.2.2.1⟩
  rw [h.1 hu]
  norm_num [Time.Sub, minDuration, maxDuration]

/-- Within the limit `Consume` returns nil and updates the bucket. -/
theorem consume_of_le (b : TokenBucket) (count : ℚ) (now : Time)
    (h : (b.GetAdjustedUsage now).1 + count ≤ b.Limit) :
    b.Consume count now =
      (none, ⟨(b.GetAdjustedUsage now).1 + count, now, b.Limit, b.Duration⟩) := by
  have h2 := getAdjustedUsage_snd b now
  unfold TokenBucket.Consume
  rcases hg : b.GetAdjustedUsage now with ⟨used, b1⟩
  rw [hg] at h2 h
  dsimp only at h2 h ⊢
  subst h2
  rw [if_pos h]

/-- Over the limit `Consume` returns `ErrLimitReached` and leaves the bucket as it was. -/
theorem consume_of_gt (b : TokenBucket) (count : ℚ) (now : Time)
    (h : b.Limit < (b.GetAdjustedUsage now).1 + count) :
    b.Consume count now = (some Error.ErrLimitReached, b) := by
  have h2 := getAdjustedUsage_snd b now
  unfold TokenBucket.Consume
  rcases hg : b.GetAdjustedUsage now with ⟨used, b1⟩
  rw [hg] at h2 h
  dsimp only at h2 h ⊢
  subst h2
  rw [if_neg (not_le.mpr h)]

/-- The error of `Consume` is nil or `ErrLimitReached`. -/
theorem consume_err (b : TokenBucket) (count : ℚ) (now : Time) :
    (b.Consume count now).1 = none ∨
      ((b.Consume count now).1 = some Error.ErrLimitReached ∧ (b.Consume count now).2 = b) := by
  by_cases h : (b.GetAdjustedUsage now).1 + count ≤ b.Limit
  · left; rw [consume_of_le b count now h]
  · right; rw [consume_of_gt b count now (not_le.mp h)]; exact ⟨rfl, rfl⟩

/-- C2: `Consume` returns nil exactly when `GetAdjustedUsage(now) + count <= Limit`,
and then the bucket has `Used = GetAdjustedUsage(now) + count` (computed on the
bucket before the call), `LastAccessTime = now`, and `Limit` and `Duration` as before. -/
theorem consume_spec (b : TokenBucket) (count : ℚ) (now : Time) :
    ((b.Consume count now).1 = none ↔ (b.GetAdjustedUsage now).1 + count ≤ b.Limit) ∧
    ((b.Consume count now).1 = none →
      (b.Consume count now).2 =
        ⟨(b.GetAdjustedUsage now).1 + count, now, b.Limit, b.Duration⟩) := by
  by_cases hle : (b.GetAdjustedUsage now).1 + count ≤ b.Limit
  · rw [consume_of_le b count now hle]
    simp [hle]
  · rw [consume_of_gt b count now (not_le.mp hle)]
    simp [hle]

/-- C2 at a concrete bucket: one unit consumed from a bucket decayed to zero. -/
theorem consume_spec_witness :
    (TokenBucket.Consume ⟨5, 2000000000, 10, 10000000000⟩ 1 7000000000).1 = none ∧
    (TokenBucket.Consume ⟨5, 2000000000, 10, 10000000000⟩ 1 7000000000).2 =
      ⟨1, 7000000000, 10, 10000000000⟩ := by
  have h := consume_spec ⟨5, 2000000000, 10, 10000000000⟩ 1 7000000000
  have hg : (TokenBucket.GetAdjustedUsage ⟨5, 2000000000, 10, 10000000000⟩ 7000000000).1 = 0 := by
    norm_num [TokenBucket.GetAdjustedUsage, Time.Unix, Time.Sub, minDuration, maxDuration]
  have h1 : (TokenBucket.Consume ⟨5, 2000000000, 10, 10000000000⟩ 1 7000000000).1 = none := by
    rw [h.1, hg]; norm_num
  refine ⟨h1, ?_⟩
  rw [h.2 h1, hg]
  norm_num

/-- C3: when `GetAdjustedUsage(now) + count > Limit`, `Consume` returns
`ErrLimitReached` and the bucket keeps all four fields. -/
theorem consume_limit_reached (b : TokenBucket) (count : ℚ) (now : Time)
    (h : b.Limit < (b.GetAdjustedUsage now).1 + count) :
    (b.Consume count now).1 = some Error.ErrLimitReached ∧
    (b.Consume count now).2 = b ∧
    (b.Consume count now).2.Used = b.Used ∧
    (b.Consume count now).2.LastAccessTime = b.LastAccessTime ∧
    (b.Consume count now).2.Limit = b.Limit ∧
    (b.Consume count now).2.Duration = b.Duration := by
  rw [consume_of_gt b count now h]
  exact ⟨rfl, rfl, rfl, rfl, rfl, rfl⟩

/-- C3 at a concrete bucket: a full bucket, one second into a ten second
window, asked for two units. -/
theorem consume_limit_reached_witness :
    (10 : ℚ) < (TokenBucket.GetAdjustedUsage ⟨10, 2000000000, 10, 10000000000⟩ 3000000000).1 + 2 ∧
    (TokenBucket.Consume ⟨10, 2000000000, 10, 10000000000⟩ 2 3000000000).1 =
      some Error.ErrLimitReached ∧
    (TokenBucket.Consume ⟨10, 2000000000, 10, 10000000000⟩ 2 3000000000).2 =
      ⟨10, 2000000000, 10, 10000000000⟩ := by
  have hg : (10 : ℚ) <
      (TokenBucket.GetAdjustedUsage ⟨10, 2000000000, 10, 10000000000⟩ 3000000000).1 + 2 := by
    norm_num [TokenBucket.GetAdjustedUsage, Time.Unix, Time.Sub, minDuration, maxDuration]
  have h := consume_limit_reached ⟨10, 2000000000, 10, 10000000000⟩ 2 3000000000 hg
  exact ⟨hg, h.1, h.2.1⟩

/-- A key is empty after trimming exactly when all its characters are white space. -/
theorem trimSpace_length_eq_zero (key : String) :
    (TrimSpace key).length = 0 ↔ ∀ c ∈ key.data, IsSpace c = true := by
  unfold TrimSpace
  rw [String.length, List.length_eq_zero, List.rdropWhile_eq_nil_iff]
  constructor
  · intro h
    have hnil : key.data.dropWhile IsSpace = [] := by
      by_contra hne
      have hhead := List.head_dropWhile_not IsSpace key.data hne
      have := h _ (List.head_mem hne)
      simp [this] at hhead
    exact List.dropWhile_eq_nil_iff.mp hnil
  · intro h
    rw [List.dropWhile_eq_nil_iff.mpr h]
    intro x hx
    cases hx

/-- C4: `checkPostArgs` returns the first failing check in the order key empty
after trimming (that is, made of white space only), count not positive, limit
not positive, count above limit, duration zero; it returns nil exactly when the
key is not blank, `0 < count <= limit` and the duration is not zero; and
`("", 1, 10, 1s)` gives `ErrKeyEmpty`, a count of 0 gives `ErrCountZero`, a count
of 11 with limit 10 gives `ErrCountLimit`. -/
theorem checkPostArgs_spec (key : String) (count limit : Int) (duration : Duration) :
    ((TrimSpace key).length = 0 ↔ ∀ c ∈ key.data, IsSpace c = true) ∧
    ((TrimSpace key).length = 0 →
      checkPostArgs key count limit duration = some Error.ErrKeyEmpty) ∧
    ((TrimSpace key).length ≠ 0 → count ≤ 0 →
      checkPostArgs key count limit duration = some Error.ErrCountZero) ∧
    ((TrimSpace key).length ≠ 0 → 0 < count → limit ≤ 0 →
      checkPostArgs key count limit duration = some Error.ErrLimitZero) ∧
    ((TrimSpace key).length ≠ 0 → 0 < count → 0 < limit → limit < count →
      checkPostArgs key count limit duration = some Error.ErrCountLimit) ∧
    ((TrimSpace key).length ≠ 0 → 0 < count → 0 < limit → count ≤ limit → duration = 0 →
      checkPostArgs key count limit duration = some Error.ErrZeroDuration) ∧
    (checkPostArgs key count limit duration = none ↔
      (TrimSpace key).length ≠ 0 ∧ 0 < count ∧ count ≤ limit ∧ duration ≠ 0) ∧
    checkPostArgs "" 1 10 Second = some Error.ErrKeyEmpty ∧
    ((TrimSpace key).length ≠ 0 →
      checkPostArgs key 0 limit duration = some Error.ErrCountZero) ∧
    ((TrimSpace key).length ≠ 0 →
      checkPostArgs key 11 10 duration = some Error.ErrCountLimit) := by
  refine ⟨trimSpace_length_eq_zero key, ?_, ?_, ?_, ?_, ?_, ?_, ?_, ?_, ?_⟩
  · intro h
    simp [checkPostArgs, h]
  · intro h h1
    simp [checkPostArgs, h, h1]
  · intro h h1 h2
    simp [checkPostArgs, h, not_le.mpr h1, h2]
  · intro h h1 h2 h3
    simp [checkPostArgs, h, not_le.mpr h1, not_le.mpr h2, h3]
  · intro h h1 h2 h3 h4
    simp [checkPostArgs, h, not_le.mpr h1, not_le.mpr h2, not_lt.mpr h3, h4]
  · unfold checkPostArgs
    split_ifs with h h1 h2 h3 h4
    · simp [h]
    · simp; intro _ h5; omega
    · simp; intro _ h5 h6; omega
    · simp; intro _ h5 h6; omega
    · simp; intro _ _ _; exact h4
    · simp only [true_iff]
      exact ⟨h, by omega, by omega, h4⟩
  · decide
  · intro h
    simp [checkPostArgs, h]
  · intro h
    simp [checkPostArgs, h]

/-- C4 at concrete arguments: a blank key, a zero count, a count above the
limit, a zero duration, and an accepted call. -/
theorem checkPostArgs_spec_witness :
    checkPostArgs " \t" 1 10 Second = some Error.ErrKeyEmpty ∧
    checkPostArgs "k" 0 10 Second = some Error.ErrCountZero ∧
    checkPostArgs "k" 1 0 Second = some Error.ErrLimitZero ∧
    checkPostArgs "k" 11 10 Second = some Error.ErrCountLimit ∧
    checkPostArgs "k" 1 10 0 = some Error.ErrZeroDuration ∧
    checkPostArgs "k" 1 10 Second = none := by
  have hk : (TrimSpace "k").length ≠ 0 := by decide
  have hb : (TrimSpace " \t").length = 0 := by decide
  refine ⟨(checkPostArgs_spec " \t" 1 10 Second).2.1 hb,
    (checkPostArgs_spec "k" 0 10 Second).2.2.1 hk (by decide),
    (checkPostArgs_spec "k" 1 0 Second).2.2.2.1 hk (by decide) (by decide),
    (checkPostArgs_spec "k" 11 10 Second).2.2.2.2.1 hk (by decide) (by decide) (by decide),
    (checkPostArgs_spec "k" 1 10 0).2.2.2.2.2.1 hk (by decide) (by decide) (by decide) rfl,
    (checkPostArgs_spec "k" 1 10 Second).2.2.2.2.2.2.1.mpr ⟨hk, by decide, by decide, by decide⟩⟩

/-- A request with method `POST` is served by the `case POST:` body. -/
theorem serveRequest_post {σ : Type} (S : RedisStorage σ) (st : σ) (req : request)
    (tNew now : Time) (hm : req.method = POST) :
    serveRequest S st req tNew now =
      { servePOST S st req tNew now with
        signal := (servePOST S st req tNew now).signal.leaveBreakable } := by
  unfold serveRequest
  have h1 : ¬ req.method = GET := by rw [hm]; decide
  have h2 : ¬ req.method = DELETE := by rw [hm]; decide
  simp only [if_neg h1, if_neg h2, if_pos hm]

/-- POST, the store read fails with an error other than `redis.ErrNil`. -/
theorem servePOST_abort {σ : Type} (S : RedisStorage σ) (st : σ) (req : request)
    (tNew now : Time)
    (h : (GetTokenBucket S st req.key).2 ≠ none ∧
      (GetTokenBucket S st req.key).2 ≠ some Error.ErrNil) :
    servePOST S st req tNew now =
      ⟨st, some ⟨0, (GetTokenBucket S st req.key).2⟩, [StoreCall.Get req.key], Signal.cont⟩ := by
  unfold servePOST
  rcases hg : GetTokenBucket S st req.key with ⟨bucket, err⟩
  rw [hg] at h
  dsimp only at h ⊢
  rw [if_pos h]

/-- POST, the read does not abort and `Consume` fails. -/
theorem servePOST_fail {σ : Type} (S : RedisStorage σ) (st : σ) (req : request)
    (tNew now : Time)
    (h : ¬ ((GetTokenBucket S st req.key).2 ≠ none ∧
      (GetTokenBucket S st req.key).2 ≠ some Error.ErrNil))
    (hc : ((postBucket (GetTokenBucket S st req.key).1 (req.limit : ℚ) req.duration
      tNew).Consume (req.count : ℚ) now).1 ≠ none) :
    servePOST S st req tNew now =
      ⟨st, some ⟨usage (postBucket (GetTokenBucket S st req.key).1 (req.limit : ℚ) req.duration
        tNew).Used, some Error.ErrLimitReached⟩, [StoreCall.Get req.key], Signal.cont⟩ := by
  unfold servePOST
  rcases hg : GetTokenBucket S st req.key with ⟨bucket, err⟩
  rw [hg] at h hc
  dsimp only at h hc ⊢
  rw [if_neg h]
  rcases consume_err (postBucket bucket (req.limit : ℚ) req.duration tNew) (req.count : ℚ) now
    with h0 | ⟨h1, h2⟩
  · exact absurd h0 hc
  · rcases hcons : (postBucket bucket (req.limit : ℚ) req.duration tNew).Consume
      (req.count : ℚ) now with ⟨e, b2⟩
    rw [hcons] at h1 h2 hc
    dsimp only at h1 h2 hc ⊢
    rw [if_pos hc, h1, h2]

/-- POST, the read does not abort and `Consume` succeeds. -/
theorem servePOST_ok {σ : Type} (S : RedisStorage σ) (st : σ) (req : request)
    (tNew now : Time)
    (h : ¬ ((GetTokenBucket S st req.key).2 ≠ none ∧
      (GetTokenBucket S st req.key).2 ≠ some Error.ErrNil))
    (hc : ((postBucket (GetTokenBucket S st req.key).1 (req.limit : ℚ) req.duration
      tNew).Consume (req.count : ℚ) now).1 = none) :
    servePOST S st req tNew now =
      ⟨(S.Setex st req.key ((postBucket (GetTokenBucket S st req.key).1 (req.limit : ℚ)
          req.duration tNew).Consume (req.count : ℚ) now).2 req.duration).2,
        some (if (S.Setex st req.key ((postBucket (GetTokenBucket S st req.key).1
            (req.limit : ℚ) req.duration tNew).Consume (req.count : ℚ) now).2 req.duration).1 ≠ none
          then ⟨0, (S.Setex st req.key ((postBucket (GetTokenBucket S st req.key).1
            (req.limit : ℚ) req.duration tNew).Consume (req.count : ℚ) now).2 req.duration).1⟩
          else ⟨usage ((postBucket (GetTokenBucket S st req.key).1 (req.limit : ℚ)
            req.duration tNew).Consume (req.count : ℚ) now).2.Used, none⟩),
        [StoreCall.Get req.key, StoreCall.Setex req.key ((postBucket
          (GetTokenBucket S st req.key).1 (req.limit : ℚ) req.duration tNew).Consume
          (req.count : ℚ) now).2 req.duration],
        if (S.Setex st req.key ((postBucket (GetTokenBucket S st req.key).1
            (req.limit : ℚ) req.duration tNew).Consume (req.count : ℚ) now).2 req.duration).1 ≠ none
          then Signal.cont else Signal.normal⟩ := by
  unfold servePOST
  rcases hg : GetTokenBucket S st req.key with ⟨bucket, err⟩
  rw [hg] at h hc
  dsimp only at h hc ⊢
  rw [if_neg h]
  rcases hcons : (postBucket bucket (req.limit : ℚ) req.duration tNew).Consume
    (req.count : ℚ) now with ⟨e, b2⟩
  rw [hcons] at hc
  dsimp only at hc ⊢
  subst hc
  rw [if_neg (by simp)]
  split_ifs <;> rfl

/-- C5: when a POST request is served, the read does not abort and `Consume`
fails, the worker replies `ErrLimitReached` with the ceiling of the `Used` field,
before any adjustment, of the bucket `Consume` was applied to: the raw `Used`
stored for the key when the stored `Limit` and `Duration` are the request's, and
zero for a bucket made anew. -/
theorem post_limit_reached_reply {σ : Type} (S : RedisStorage σ) (st : σ) (req : request)
    (tNew now : Time) (hm : req.method = POST)
    (hread : (GetTokenBucket S st req.key).2 = none ∨
      (GetTokenBucket S st req.key).2 = some Error.ErrNil)
    (hfail : ((postBucket (GetTokenBucket S st req.key).1 (req.limit : ℚ) req.duration
      tNew).Consume (req.count : ℚ) now).1 ≠ none) :
    (serveRequest S st req tNew now).sent =
      some ⟨usage (postBucket (GetTokenBucket S st req.key).1 (req.limit : ℚ) req.duration
        tNew).Used, some Error.ErrLimitReached⟩ ∧
    (∀ b : TokenBucket, (GetTokenBucket S st req.key).1 = some b →
      b.Limit = (req.limit : ℚ) → b.Duration = req.duration →
      (serveRequest S st req tNew now).sent = some ⟨⌈b.Used⌉, some Error.ErrLimitReached⟩) ∧
    (∀ b : TokenBucket, (GetTokenBucket S st req.key).1 = some b →
      (b.Limit ≠ (req.limit : ℚ) ∨ b.Duration ≠ req.duration) →
      (serveRequest S st req tNew now).sent = some ⟨0, some Error.ErrLimitReached⟩) ∧
    ((GetTokenBucket S st req.key).1 = none →
      (serveRequest S st req tNew now).sent = some ⟨0, some Error.ErrLimitReached⟩) := by
  have hna : ¬ ((GetTokenBucket S st req.key).2 ≠ none ∧
      (GetTokenBucket S st req.key).2 ≠ some Error.ErrNil) := by
    rintro ⟨h1, h2⟩
    rcases hread with h | h
    · exact h1 h
    · exact h2 h
  have hsent : (serveRequest S st req tNew now).sent =
      some ⟨usage (postBucket (GetTokenBucket S st req.key).1 (req.limit : ℚ) req.duration
        tNew).Used, some Error.ErrLimitReached⟩ := by
    rw [serveRequest_post S st req tNew now hm, servePOST_fail S st req tNew now hna hfail]
  refine ⟨hsent, ?_, ?_, ?_⟩
  · intro b hb hl hd
    rw [hsent, hb]
    simp [postBucket, hl, hd, usage]
  · intro b hb hne
    rw [hsent, hb]
    simp [postBucket, hne, NewTokenBucket, usage]
  · intro hb
    rw [hsent, hb]
    simp [postBucket, NewTokenBucket, usage]

/-- C5 on the in-memory store: a full bucket of limit 10, read one second into
its ten second window, is asked for two units; the reply carries 10, the stored
`Used`, while the adjusted usage at that time has ceiling 9. -/
theorem post_limit_reached_reply_witness :
    (serveRequest memStorage [("k", ⟨10, 2000000000, 10, 10000000000⟩, 10000000000)]
      ⟨POST, "k", 2, 10, 10000000000⟩ 3000000000 3000000000).sent =
      some ⟨10, some Error.ErrLimitReached⟩ ∧
    usage (TokenBucket.GetAdjustedUsage ⟨10, 2000000000, 10, 10000000000⟩ 3000000000).1 = 9 := by
  have hg : GetTokenBucket memStorage
      [("k", (⟨10, 2000000000, 10, 10000000000⟩ : TokenBucket), (10000000000 : Duration))] "k" =
      (some ⟨10, 2000000000, 10, 10000000000⟩, none) := by
    simp [GetTokenBucket, memStorage, List.lookup, gobDecode]
  have hu : (TokenBucket.GetAdjustedUsage ⟨10, 2000000000, 10, 10000000000⟩ 3000000000).1 = 9 := by
    norm_num [TokenBucket.GetAdjustedUsage, Time.Unix, Time.Sub, minDuration, maxDuration]
  have h := post_limit_reached_reply memStorage
    [("k", ⟨10, 2000000000, 10, 10000000000⟩, 10000000000)]
    ⟨POST, "k", 2, 10, 10000000000⟩ 3000000000 3000000000 rfl
    (by simp only [hg]; exact Or.inl trivial)
    (by
      simp only [hg]
      rw [show postBucket (some (⟨10, 2000000000, 10, 10000000000⟩ : TokenBucket))
        ((10 : Int) : ℚ) 10000000000 3000000000 = ⟨10, 2000000000, 10, 10000000000⟩ by
          norm_num [postBucket]]
      rw [consume_of_gt _ _ _ (by rw [hu]; norm_num)]
      simp)
  refine ⟨?_, ?_⟩
  · have h2 := h.2.1 ⟨10, 2000000000, 10, 10000000000⟩ (by simp only [hg]) (by norm_num)
      (by norm_num)
    rw [h2]
    norm_num
  · rw [hu]
    simp [usage]

/-- C6: when a POST request is served, a write is issued to the store exactly
when `Consume` ran and succeeded; the calls are then the read followed by one
`Setex` for the request's key, carrying the bucket as `Consume` left it, with the
request's duration as expiry, and the store afterwards is the one that `Setex`
returns; otherwise the read is the only call and the store is the same before
and after. No `Delete` is issued in either case. -/
theorem post_write_iff_consumed {σ : Type} (S : RedisStorage σ) (st : σ) (req : request)
    (tNew now : Time) (hm : req.method = POST) :
    ((∃ k v e, StoreCall.Setex k v e ∈ (serveRequest S st req tNew now).calls) ↔
      (((GetTokenBucket S st req.key).2 = none ∨
          (GetTokenBucket S st req.key).2 = some Error.ErrNil) ∧
        ((postBucket (GetTokenBucket S st req.key).1 (req.limit : ℚ) req.duration
          tNew).Consume (req.count : ℚ) now).1 = none)) ∧
    ((((GetTokenBucket S st req.key).2 = none ∨
          (GetTokenBucket S st req.key).2 = some Error.ErrNil) ∧
        ((postBucket (GetTokenBucket S st req.key).1 (req.limit : ℚ) req.duration
          tNew).Consume (req.count : ℚ) now).1 = none) →
      (serveRequest S st req tNew now).calls =
        [StoreCall.Get req.key,
          StoreCall.Setex req.key ((postBucket (GetTokenBucket S st req.key).1 (req.limit : ℚ)
            req.duration tNew).Consume (req.count : ℚ) now).2 req.duration] ∧
      (serveRequest S st req tNew now).storage =
        (S.Setex st req.key ((postBucket (GetTokenBucket S st req.key).1 (req.limit : ℚ)
            req.duration tNew).Consume (req.count : ℚ) now).2 req.duration).2) ∧
    (¬ (((GetTokenBucket S st req.key).2 = none ∨
          (GetTokenBucket S st req.key).2 = some Error.ErrNil) ∧
        ((postBucket (GetTokenBucket S st req.key).1 (req.limit : ℚ) req.duration
          tNew).Consume (req.count : ℚ) now).1 = none) →
      (serveRequest S st req tNew now).calls = [StoreCall.Get req.key] ∧
      (serveRequest S st req tNew now).storage = st) ∧
    (∀ k, StoreCall.Delete k ∉ (serveRequest S st req tNew now).calls) := by
  rw [serveRequest_post S st req tNew now hm]
  dsimp only
  by_cases ha : (GetTokenBucket S st req.key).2 ≠ none ∧
      (GetTokenBucket S st req.key).2 ≠ some Error.ErrNil
  · have hno : ¬ (((GetTokenBucket S st req.key).2 = none ∨
          (GetTokenBucket S st req.key).2 = some Error.ErrNil) ∧
        ((postBucket (GetTokenBucket S st req.key).1 (req.limit : ℚ) req.duration
          tNew).Consume (req.count : ℚ) now).1 = none) := by
      rintro ⟨h1 | h1, _⟩
      · exact ha.1 h1
      · exact ha.2 h1
    rw [servePOST_abort S st req tNew now ha]
    simp [hno]
  · have hr : (GetTokenBucket S st req.key).2 = none ∨
        (GetTokenBucket S st req.key).2 = some Error.ErrNil := by
      by_contra hcon
      exact ha ⟨fun h => hcon (Or.inl h), fun h => hcon (Or.inr h)⟩
    by_cases hc : ((postBucket (GetTokenBucket S st req.key).1 (req.limit : ℚ) req.duration
        tNew).Consume (req.count : ℚ) now).1 = none
    · rw [servePOST_ok S st req tNew now ha hc]
      simp [hr, hc]
    · rw [servePOST_fail S st req tNew now ha hc]
      simp [hc]

/-- C6 on the in-memory store: a first POST on an empty store issues the read
and one `Setex`; a POST over the limit issues the read only and leaves the
store as it was. -/
theorem post_write_iff_consumed_witness :
    (serveRequest memStorage [] ⟨POST, "k", 1, 10, 10000000000⟩ 2000000000 2000000000).calls =
      [StoreCall.Get "k", StoreCall.Setex "k" ⟨1, 2000000000, 10, 10000000000⟩ 10000000000] ∧
    (serveRequest memStorage [] ⟨POST, "k", 1, 10, 10000000000⟩ 2000000000 2000000000).storage =
      [("k", ⟨1, 2000000000, 10, 10000000000⟩, 10000000000)] ∧
    (serveRequest memStorage [("k", ⟨10, 2000000000, 10, 10000000000⟩, 10000000000)]
      ⟨POST, "k", 2, 10, 10000000000⟩ 3000000000 3000000000).calls = [StoreCall.Get "k"] ∧
    (serveRequest memStorage [("k", ⟨10, 2000000000, 10, 10000000000⟩, 10000000000)]
      ⟨POST, "k", 2, 10, 10000000000⟩ 3000000000 3000000000).storage =
      [("k", ⟨10, 2000000000, 10, 10000000000⟩, 10000000000)] := by
  have hg0 : GetTokenBucket memStorage ([] : MemStore) "k" = (none, some Error.ErrNil) := by
    simp [GetTokenBucket, memStorage, List.lookup]
  have hc0 : (NewTokenBucket ((10 : Int) : ℚ) 10000000000 2000000000).Consume ((1 : Int) : ℚ)
      2000000000 = (none, ⟨1, 2000000000, 10, 10000000000⟩) := by
    rw [consume_of_le] <;>
      norm_num [NewTokenBucket, TokenBucket.GetAdjustedUsage, Time.Unix, Time.Sub, minDuration,
        maxDuration]
  have h0 := (post_write_iff_consumed memStorage [] ⟨POST, "k", 1, 10, 10000000000⟩
    2000000000 2000000000 rfl).2.1
  simp only [hg0, postBucket, hc0] at h0
  have h0 := h0 ⟨Or.inr trivial, trivial⟩
  have hg1 : GetTokenBucket memStorage
      [("k", (⟨10, 2000000000, 10, 10000000000⟩ : TokenBucket), (10000000000 : Duration))] "k" =
      (some ⟨10, 2000000000, 10, 10000000000⟩, none) := by
    simp [GetTokenBucket, memStorage, List.lookup, gobDecode]
  have hc1 : (TokenBucket.Consume ⟨10, 2000000000, 10, 10000000000⟩ ((2 : Int) : ℚ)
      3000000000).1 ≠ none := by
    rw [consume_of_gt]
    · simp
    · norm_num [TokenBucket.GetAdjustedUsage, Time.Unix, Time.Sub, minDuration, maxDuration]
  have h1 := (post_write_iff_consumed memStorage
    [("k", ⟨10, 2000000000, 10, 10000000000⟩, 10000000000)]
    ⟨POST, "k", 2, 10, 10000000000⟩ 3000000000 3000000000 rfl).2.2.1
  simp only [hg1] at h1
  rw [show postBucket (some (⟨10, 2000000000, 10, 10000000000⟩ : TokenBucket))
        ((10 : Int) : ℚ) 10000000000 3000000000 = ⟨10, 2000000000, 10, 10000000000⟩ by
          norm_num [postBucket]] at h1
  have h1 := h1 (fun h => hc1 h.2)
  refine ⟨h0.1, ?_, h1.1, h1.2⟩
  rw [h0.2]
  simp [memStorage]

/-- A read that reports an error yields no bucket and that error. -/
theorem getTokenBucket_of_err {σ : Type} (S : RedisStorage σ) (st : σ) (key : String)
    (e : Error) (h : (S.Get st key).2 = some e) :
    GetTokenBucket S st key = (none, some e) := by
  unfold GetTokenBucket
  rcases hg : S.Get st key with ⟨data, err⟩
  rw [hg] at h
  dsimp only at h ⊢
  subst h
  simp

/-- A read that returns data decoding to a bucket, and no error, yields that bucket. -/
theorem getTokenBucket_of_gob {σ : Type} (S : RedisStorage σ) (st : σ) (key : String)
    (b : TokenBucket) (h : S.Get st key = (some (Data.gob b), none)) :
    GetTokenBucket S st key = (some b, none) := by
  unfold GetTokenBucket
  rw [h]
  simp [gobDecode]

/-- Adjusted usage of a bucket that has just been made. -/
theorem getAdjustedUsage_new (limit : ℚ) (duration : Duration) (tNew now : Time) :
    ((NewTokenBucket limit duration tNew).GetAdjustedUsage now).1 =
      if 0 < tNew.Unix then max 0 (-(limit * ((now.Sub tNew : Int) : ℚ) / (duration : ℚ)))
      else 0 := by
  by_cases h : 0 < tNew.Unix
  · rw [if_pos h, getAdjustedUsage_set _ _ h]
    simp [NewTokenBucket]
  · rw [if_neg h, getAdjustedUsage_unset _ _ (not_lt.mp h)]
    simp [NewTokenBucket]

/-- The decay term of a new bucket has the sign of elapsed time times duration. -/
theorem back_nonneg_iff (limit : ℚ) (e d : Int) (hl : 0 < limit) (hd : d ≠ 0) :
    0 ≤ limit * (e : ℚ) / (d : ℚ) ↔ 0 ≤ e * d := by
  have hdq : (d : ℚ) ≠ 0 := by exact_mod_cast hd
  have hsq : 0 < (d : ℚ) * (d : ℚ) := mul_self_pos.mpr hdq
  have key : limit * (e : ℚ) / (d : ℚ) = limit * ((e : ℚ) * (d : ℚ)) / ((d : ℚ) * (d : ℚ)) := by
    field_simp
    ring
  rw [key, div_nonneg_iff]
  constructor
  · rintro (⟨h1, _⟩ | ⟨_, h2⟩)
    · have : 0 ≤ (e : ℚ) * (d : ℚ) := by
        by_contra hneg
        have := mul_neg_of_pos_of_neg hl (not_le.mp hneg)
        linarith
      exact_mod_cast this
    · linarith
  · intro h
    left
    have : 0 ≤ (e : ℚ) * (d : ℚ) := by exact_mod_cast h
    exact ⟨mul_nonneg hl.le this, hsq.le⟩

/-- A new bucket has adjusted usage zero exactly when it is not set or the
elapsed time and the duration do not have opposite signs. -/
theorem getAdjustedUsage_new_eq_zero (limit : ℚ) (duration : Duration) (tNew now : Time)
    (hl : 0 < limit) (hd : duration ≠ 0) :
    ((NewTokenBucket limit duration tNew).GetAdjustedUsage now).1 = 0 ↔
      (tNew.Unix ≤ 0 ∨ 0 ≤ now.Sub tNew * duration) := by
  rw [getAdjustedUsage_new]
  by_cases h : 0 < tNew.Unix
  · rw [if_pos h, ← back_nonneg_iff limit _ _ hl hd]
    constructor
    · intro hm
      right
      have := le_max_right 0 (-(limit * ((now.Sub tNew : Int) : ℚ) / (duration : ℚ)))
      rw [hm] at this
      linarith
    · rintro (h1 | h1)
      · omega
      · exact max_eq_left (by linarith)
  · rw [if_neg h]
    simp [not_lt.mp h]

/-- Adjusted usage is never negative when `Used` is not. -/
theorem getAdjustedUsage_nonneg (b : TokenBucket) (now : Time) (h : 0 ≤ b.Used) :
    0 ≤ (b.GetAdjustedUsage now).1 := by
  by_cases hs : 0 < b.LastAccessTime.Unix
  · rw [getAdjustedUsage_set b now hs]
    exact le_max_left _ _
  · rw [getAdjustedUsage_unset b now (not_lt.mp hs)]
    exact h

/-- Elapsed time is not negative when the clock did not go back. -/
theorem sub_nonneg_of_le (t u : Int) (h : u ≤ t) : (0 : Int) ≤ Time.Sub t u := by
  unfold Time.Sub minDuration maxDuration Duration
  split_ifs with h1 h2
  · exfalso
    linarith
  · decide
  · linarith

/-- Arguments that `checkPostArgs` accepts. -/
theorem checkPostArgs_none (key : String) (count limit : Int) (duration : Duration)
    (h : checkPostArgs key count limit duration = none) :
    (TrimSpace key).length ≠ 0 ∧ 0 < count ∧ count ≤ limit ∧ duration ≠ 0 := by
  unfold checkPostArgs at h
  split_ifs at h with h1 h2 h3 h4 h5
  exact ⟨h1, by omega, by omega, h5⟩

/-- With accepted arguments and a running worker, `Post` returns what the POST
branch sends. -/
theorem post_running {σ : Type} (S : RedisStorage σ) (w : Worker σ) (key : String)
    (count limit : Int) (duration : Duration) (tNew now : Time)
    (hargs : checkPostArgs key count limit duration = none)
    (hrun : w.status = Status.Running) :
    (SingleThreadLimiter.Post S w key count limit duration tNew now).1 =
      (servePOST S w.storage ⟨POST, key, count, limit, duration⟩ tNew now).sent.map
        fun r => (r.used, r.err) := by
  unfold SingleThreadLimiter.Post
  rw [hargs]
  dsimp only
  unfold roundTrip
  rw [hrun]
  dsimp only
  rw [serveRequest_post _ _ _ _ _ rfl]

/-- The POST branch on a bucket made anew: the response is `(count, nil)`
exactly when the new bucket shows no usage at the time of `Consume` and the
write of the bucket `(count, now, limit, duration)` succeeds. -/
theorem servePOST_new {σ : Type} (S : RedisStorage σ) (st : σ) (req : request)
    (tNew now : Time)
    (hna : ¬ ((GetTokenBucket S st req.key).2 ≠ none ∧
      (GetTokenBucket S st req.key).2 ≠ some Error.ErrNil))
    (hnew : postBucket (GetTokenBucket S st req.key).1 (req.limit : ℚ) req.duration tNew =
      NewTokenBucket (req.limit : ℚ) req.duration tNew)
    (hc : 0 < req.count) (hl : req.count ≤ req.limit) (hd : req.duration ≠ 0) :
    (servePOST S st req tNew now).sent = some ⟨req.count, none⟩ ↔
      ((tNew.Unix ≤ 0 ∨ 0 ≤ now.Sub tNew * req.duration) ∧
        (S.Setex st req.key ⟨(req.count : ℚ), now, (req.limit : ℚ), req.duration⟩
          req.duration).1 = none) := by
  have hlq : (0 : ℚ) < (req.limit : ℚ) := by
    have : 0 < req.limit := lt_of_lt_of_le hc hl
    exact_mod_cast this
  have hclq : (req.count : ℚ) ≤ (req.limit : ℚ) := by exact_mod_cast hl
  have hz := getAdjustedUsage_new_eq_zero (req.limit : ℚ) req.duration tNew now hlq hd
  by_cases hD : tNew.Unix ≤ 0 ∨ 0 ≤ now.Sub tNew * req.duration
  · have hg := hz.mpr hD
    have hcons : (NewTokenBucket (req.limit : ℚ) req.duration tNew).Consume (req.count : ℚ) now =
        (none, ⟨(req.count : ℚ), now, (req.limit : ℚ), req.duration⟩) := by
      rw [consume_of_le _ _ _ (by rw [hg, zero_add]; exact hclq), hg, zero_add]
      rfl
    rw [servePOST_ok S st req tNew now hna (by rw [hnew, hcons]), hnew, hcons]
    dsimp only
    by_cases hw : (S.Setex st req.key ⟨(req.count : ℚ), now, (req.limit : ℚ), req.duration⟩
        req.duration).1 = none
    · simp [hw, hD, usage]
    · simp [hw]
  · have hg0 : ((NewTokenBucket (req.limit : ℚ) req.duration tNew).GetAdjustedUsage now).1 ≠ 0 :=
      fun h => hD (hz.mp h)
    have hgpos : 0 < ((NewTokenBucket (req.limit : ℚ) req.duration tNew).GetAdjustedUsage now).1 :=
      lt_of_le_of_ne (getAdjustedUsage_nonneg _ now (le_refl _)) (Ne.symm hg0)
    simp only [hD, false_and, iff_false]
    by_cases hok : ((NewTokenBucket (req.limit : ℚ) req.duration tNew).GetAdjustedUsage now).1 +
        (req.count : ℚ) ≤ (req.limit : ℚ)
    · have hcons := consume_of_le (NewTokenBucket (req.limit : ℚ) req.duration tNew)
        (req.count : ℚ) now hok
      rw [servePOST_ok S st req tNew now hna (by rw [hnew, hcons]), hnew, hcons]
      dsimp only
      split_ifs with hw
      · intro h
        simp only [Option.some.injEq, response.mk.injEq] at h
        exact hw h.2
      · intro h
        simp only [Option.some.injEq, response.mk.injEq, and_true, usage] at h
        rw [Int.ceil_add_int] at h
        have h1 : (0 : Int) < ⌈((NewTokenBucket (req.limit : ℚ) req.duration
            tNew).GetAdjustedUsage now).1⌉ := Int.ceil_pos.mpr hgpos
        omega
    · have hcons := consume_of_gt (NewTokenBucket (req.limit : ℚ) req.duration tNew)
        (req.count : ℚ) now (not_le.mp hok)
      rw [servePOST_fail S st req tNew now hna (by rw [hnew, hcons]; simp)]
      simp

/-- The POST branch on a key the store does not hold, when the new bucket
already shows too much usage at the time of `Consume`. -/
theorem servePOST_fresh_fail {σ : Type} (S : RedisStorage σ) (st : σ) (req : request)
    (tNew now : Time) (hmiss : (S.Get st req.key).2 = some Error.ErrNil)
    (hgt : (req.limit : ℚ) <
      ((NewTokenBucket (req.limit : ℚ) req.duration tNew).GetAdjustedUsage now).1 +
        (req.count : ℚ)) :
    (servePOST S st req tNew now).sent = some ⟨0, some Error.ErrLimitReached⟩ := by
  have hg := getTokenBucket_of_err S st req.key _ hmiss
  have hcons := consume_of_gt (NewTokenBucket (req.limit : ℚ) req.duration tNew)
    (req.count : ℚ) now hgt
  rw [servePOST_fail S st req tNew now (by rw [hg]; simp)
    (by rw [hg]; simp only [postBucket]; rw [hcons]; simp), hg]
  simp [postBucket, NewTokenBucket, usage]

/-- C7, as amended: for arguments accepted by `checkPostArgs`, a running worker
and a store whose read reports not-found for the key, `Post` returns
`(count, nil)` exactly when the write of the new bucket succeeds and the new
bucket shows no usage when it is consumed, that is when its creation time is
not set or the elapsed time between creation and consumption and the duration
do not have opposite signs; in particular it does for a positive duration, a
clock that does not go back and a write that succeeds, and then `Incr` on a
fresh key returns `(1, nil)`. -/
theorem first_post_fresh_key {σ : Type} (S : RedisStorage σ) (w : Worker σ) (key : String)
    (count limit : Int) (duration : Duration) (tNew now : Time)
    (hargs : checkPostArgs key count limit duration = none)
    (hrun : w.status = Status.Running)
    (hmiss : (S.Get w.storage key).2 = some Error.ErrNil) :
    ((SingleThreadLimiter.Post S w key count limit duration tNew now).1 = some (count, none) ↔
      ((tNew.Unix ≤ 0 ∨ 0 ≤ now.Sub tNew * duration) ∧
        (S.Setex w.storage key ⟨(count : ℚ), now, (limit : ℚ), duration⟩ duration).1 = none)) ∧
    (0 < duration → tNew ≤ now →
      (S.Setex w.storage key ⟨(count : ℚ), now, (limit : ℚ), duration⟩ duration).1 = none →
      (SingleThreadLimiter.Post S w key count limit duration tNew now).1 = some (count, none)) ∧
    (count = 1 → 0 < duration → tNew ≤ now →
      (S.Setex w.storage key ⟨(count : ℚ), now, (limit : ℚ), duration⟩ duration).1 = none →
      (Ratelimit.Incr ⟨limit, duration⟩ S w key tNew now).1 = some (1, none)) := by
  obtain ⟨_, hc, hl, hd⟩ := checkPostArgs_none key count limit duration hargs
  have hg := getTokenBucket_of_err S w.storage key _ hmiss
  have hiff := servePOST_new S w.storage ⟨POST, key, count, limit, duration⟩ tNew now
    (by dsimp only; rw [hg]; simp) (by dsimp only; rw [hg]; rfl) hc hl hd
  dsimp only at hiff
  have hpost := post_running S w key count limit duration tNew now hargs hrun
  have hmain : (SingleThreadLimiter.Post S w key count limit duration tNew now).1 =
      some (count, none) ↔
      ((tNew.Unix ≤ 0 ∨ 0 ≤ now.Sub tNew * duration) ∧
        (S.Setex w.storage key ⟨(count : ℚ), now, (limit : ℚ), duration⟩ duration).1 = none) := by
    rw [hpost, ← hiff]
    cases (servePOST S w.storage ⟨POST, key, count, limit, duration⟩ tNew now).sent with
    | none => simp
    | some r =>
      cases r
      simp
  have hfwd : 0 < duration → tNew ≤ now →
      (S.Setex w.storage key ⟨(count : ℚ), now, (limit : ℚ), duration⟩ duration).1 = none →
      (SingleThreadLimiter.Post S w key count limit duration tNew now).1 = some (count, none) :=
    fun hpos hclk hw =>
      hmain.mpr ⟨Or.inr (mul_nonneg (sub_nonneg_of_le now tNew hclk) hpos.le), hw⟩
  refine ⟨hmain, hfwd, ?_⟩
  intro h1 hpos hclk hw
  have := hfwd hpos hclk hw
  rw [h1] at this
  rw [← this]
  rfl

/-- C7 on the in-memory store: the first `Post` and the first `Incr` on an
empty store, with a ten second window and a clock that moves on by a second. -/
theorem first_post_fresh_key_witness :
    (SingleThreadLimiter.Post memStorage (Worker.start []) "k" 3 10 10000000000
      2000000000 3000000000).1 = some (3, none) ∧
    (Ratelimit.Incr ⟨10, 10000000000⟩ memStorage (Worker.start []) "k"
      2000000000 3000000000).1 = some (1, none) := by
  have h3 := first_post_fresh_key memStorage (Worker.start []) "k" 3 10 10000000000
    2000000000 3000000000 (by decide) rfl rfl
  have h1 := first_post_fresh_key memStorage (Worker.start []) "k" 1 10 10000000000
    2000000000 3000000000 (by decide) rfl rfl
  exact ⟨h3.2.1 (by decide) (by decide) rfl, h1.2.2 rfl (by decide) (by decide) rfl⟩

/-- C7 fails as stated: on a store that holds nothing, with arguments that
`checkPostArgs` accepts, the first `Post` is refused with `ErrLimitReached`
when the duration is negative and the clock moves on by a second, and also when
the duration is positive and the clock goes back by a second; and it returns
the store's error when the write fails. -/
theorem first_post_fresh_key_counterexample :
    checkPostArgs "k" 1 10 (-1000000000) = none ∧
    memStorage.Get [] "k" = (none, some Error.ErrNil) ∧
    (SingleThreadLimiter.Post memStorage (Worker.start []) "k" 1 10 (-1000000000)
      2000000000 3000000000).1 = some (0, some Error.ErrLimitReached) ∧
    (SingleThreadLimiter.Post memStorage (Worker.start []) "k" 1 10 1000000000
      3000000000 2000000000).1 = some (0, some Error.ErrLimitReached) ∧
    (SingleThreadLimiter.Post brokenWrites (Worker.start []) "k" 1 10 1000000000
      2000000000 3000000000).1 = some (0, some (Error.storage "connection refused")) := by
  refine ⟨by decide, rfl, ?_, ?_, ?_⟩
  · rw [post_running _ _ _ _ _ _ _ _ (by decide) rfl,
      servePOST_fresh_fail memStorage (Worker.start ([] : MemStore)).storage
        ⟨POST, "k", 1, 10, -1000000000⟩ _ _ rfl]
    · rfl
    · norm_num [NewTokenBucket, TokenBucket.GetAdjustedUsage, Time.Unix, Time.Sub, minDuration,
        maxDuration]
  · rw [post_running _ _ _ _ _ _ _ _ (by decide) rfl,
      servePOST_fresh_fail memStorage (Worker.start ([] : MemStore)).storage
        ⟨POST, "k", 1, 10, 1000000000⟩ _ _ rfl]
    · rfl
    · norm_num [NewTokenBucket, TokenBucket.GetAdjustedUsage, Time.Unix, Time.Sub, minDuration,
        maxDuration]
  · have hg : GetTokenBucket brokenWrites (Worker.start ([] : MemStore)).storage
        (⟨POST, "k", 1, 10, 1000000000⟩ : request).key = (none, some Error.ErrNil) :=
      getTokenBucket_of_err _ _ _ _ rfl
    have hcons : (NewTokenBucket ((10 : Int) : ℚ) 1000000000 2000000000).Consume
        ((1 : Int) : ℚ) 3000000000 = (none, ⟨1, 3000000000, 10, 1000000000⟩) := by
      rw [consume_of_le] <;>
        norm_num [NewTokenBucket, TokenBucket.GetAdjustedUsage, Time.Unix, Time.Sub, minDuration,
          maxDuration]
    rw [post_running _ _ _ _ _ _ _ _ (by decide) rfl,
      servePOST_ok brokenWrites _ ⟨POST, "k", 1, 10, 1000000000⟩ _ _
        (by rw [hg]; simp) (by rw [hg]; simp only [postBucket]; rw [hcons])]
    simp [brokenWrites]

/-- The POST branch never panics and never ends in a `break`. -/
theorem servePOST_signal {σ : Type} (S : RedisStorage σ) (st : σ) (req : request)
    (tNew now : Time) :
    (servePOST S st req tNew now).signal = Signal.normal ∨
      (servePOST S st req tNew now).signal = Signal.cont := by
  by_cases ha : (GetTokenBucket S st req.key).2 ≠ none ∧
      (GetTokenBucket S st req.key).2 ≠ some Error.ErrNil
  · rw [servePOST_abort S st req tNew now ha]
    exact Or.inr rfl
  · by_cases hc : ((postBucket (GetTokenBucket S st req.key).1 (req.limit : ℚ) req.duration
        tNew).Consume (req.count : ℚ) now).1 = none
    · rw [servePOST_ok S st req tNew now ha hc]
      dsimp only
      split_ifs
      · exact Or.inr rfl
      · exact Or.inl rfl
    · rw [servePOST_fail S st req tNew now ha hc]
      exact Or.inr rfl

/-- One request received by a running worker, when serving it does not panic:
the worker takes the store of the step, records the response and the calls,
and keeps running. -/
theorem serve_recv {σ : Type} (S : RedisStorage σ) (w : Worker σ) (req : request)
    (tNew now : Time) (hrun : w.status = Status.Running)
    (hsig : (serveRequest S w.storage req tNew now).signal = Signal.normal ∨
      (serveRequest S w.storage req tNew now).signal = Signal.cont) :
    serve S [Event.recv req tNew now] w =
      ⟨(serveRequest S w.storage req tNew now).storage, Status.Running,
        (match (serveRequest S w.storage req tNew now).sent with
          | some r => w.replies ++ [(req, r)]
          | none => w.replies),
        w.calls ++ (serveRequest S w.storage req tNew now).calls⟩ := by
  unfold serve
  rw [hrun]
  dsimp only
  unfold selectStmt caseBody
  dsimp only
  rcases hsig with h | h <;> rw [h] <;> simp [Signal.leaveBreakable, serve, hrun]

/-- The worker after `Post` with accepted arguments on a running worker. -/
theorem post_worker {σ : Type} (S : RedisStorage σ) (w : Worker σ) (key : String)
    (count limit : Int) (duration : Duration) (tNew now : Time)
    (hargs : checkPostArgs key count limit duration = none)
    (hrun : w.status = Status.Running) :
    (SingleThreadLimiter.Post S w key count limit duration tNew now).2.storage =
        (servePOST S w.storage ⟨POST, key, count, limit, duration⟩ tNew now).storage ∧
      (SingleThreadLimiter.Post S w key count limit duration tNew now).2.status =
        Status.Running ∧
      (SingleThreadLimiter.Post S w key count limit duration tNew now).2.calls =
        w.calls ++ (servePOST S w.storage ⟨POST, key, count, limit, duration⟩ tNew now).calls := by
  have hsr := serveRequest_post S w.storage ⟨POST, key, count, limit, duration⟩ tNew now rfl
  have hsig : (serveRequest S w.storage ⟨POST, key, count, limit, duration⟩ tNew now).signal =
        Signal.normal ∨
      (serveRequest S w.storage ⟨POST, key, count, limit, duration⟩ tNew now).signal =
        Signal.cont := by
    rw [hsr]
    dsimp only
    rcases servePOST_signal S w.storage ⟨POST, key, count, limit, duration⟩ tNew now with h | h <;>
      rw [h]
    · exact Or.inl rfl
    · exact Or.inr rfl
  have hserve := serve_recv S w ⟨POST, key, count, limit, duration⟩ tNew now hrun hsig
  unfold SingleThreadLimiter.Post
  rw [hargs]
  dsimp only
  unfold roundTrip
  rw [hrun]
  dsimp only
  rw [hserve, hsr]
  exact ⟨rfl, rfl, rfl⟩

/-- The POST branch on a bucket made anew that shows no usage when consumed,
with a write that succeeds. -/
theorem servePOST_new_ok {σ : Type} (S : RedisStorage σ) (st : σ) (req : request)
    (tNew now : Time)
    (hna : ¬ ((GetTokenBucket S st req.key).2 ≠ none ∧
      (GetTokenBucket S st req.key).2 ≠ some Error.ErrNil))
    (hnew : postBucket (GetTokenBucket S st req.key).1 (req.limit : ℚ) req.duration tNew =
      NewTokenBucket (req.limit : ℚ) req.duration tNew)
    (hc : 0 < req.count) (hl : req.count ≤ req.limit) (hd : req.duration ≠ 0)
    (hD : tNew.Unix ≤ 0 ∨ 0 ≤ now.Sub tNew * req.duration)
    (hw : (S.Setex st req.key ⟨(req.count : ℚ), now, (req.limit : ℚ), req.duration⟩
      req.duration).1 = none) :
    servePOST S st req tNew now =
      ⟨(S.Setex st req.key ⟨(req.count : ℚ), now, (req.limit : ℚ), req.duration⟩
          req.duration).2,
        some ⟨req.count, none⟩,
        [StoreCall.Get req.key,
          StoreCall.Setex req.key ⟨(req.count : ℚ), now, (req.limit : ℚ), req.duration⟩
            req.duration],
        Signal.normal⟩ := by
  have hlq : (0 : ℚ) < (req.limit : ℚ) := by
    have : 0 < req.limit := lt_of_lt_of_le hc hl
    exact_mod_cast this
  have hclq : (req.count : ℚ) ≤ (req.limit : ℚ) := by exact_mod_cast hl
  have hg := (getAdjustedUsage_new_eq_zero (req.limit : ℚ) req.duration tNew now hlq hd).mpr hD
  have hcons : (NewTokenBucket (req.limit : ℚ) req.duration tNew).Consume (req.count : ℚ) now =
      (none, ⟨(req.count : ℚ), now, (req.limit : ℚ), req.duration⟩) := by
    rw [consume_of_le _ _ _ (by rw [hg, zero_add]; exact hclq), hg, zero_add]
    rfl
  rw [servePOST_ok S st req tNew now hna (by rw [hnew, hcons]), hnew, hcons]
  simp [hw, usage]

/-- C8, as amended: for a `Post` with accepted arguments on a key whose stored
bucket has a `Limit` or a `Duration` other than the request's, `Consume` runs on
a new bucket with `Used = 0` and the request's limit and duration, whatever the
old `Used`; the reply is `(count, nil)` exactly when the write succeeds and the
new bucket shows no usage when consumed (its creation time is not set, or the
elapsed time and the duration do not have opposite signs), as with a positive
duration and a clock that does not go back; the bucket persisted then has
`Used = count` and the request's limit and duration. A stored bucket whose two
parameters are the request's is the one consumed. -/
theorem post_param_mismatch {σ : Type} (S : RedisStorage σ) (w : Worker σ) (key : String)
    (count limit : Int) (duration : Duration) (tNew now : Time) (b : TokenBucket)
    (hargs : checkPostArgs key count limit duration = none)
    (hrun : w.status = Status.Running)
    (hget : S.Get w.storage key = (some (Data.gob b), none))
    (hmis : b.Limit ≠ (limit : ℚ) ∨ b.Duration ≠ duration) :
    postBucket (GetTokenBucket S w.storage key).1 (limit : ℚ) duration tNew =
      ⟨0, tNew, (limit : ℚ), duration⟩ ∧
    ((SingleThreadLimiter.Post S w key count limit duration tNew now).1 = some (count, none) ↔
      ((tNew.Unix ≤ 0 ∨ 0 ≤ now.Sub tNew * duration) ∧
        (S.Setex w.storage key ⟨(count : ℚ), now, (limit : ℚ), duration⟩ duration).1 = none)) ∧
    ((tNew.Unix ≤ 0 ∨ 0 ≤ now.Sub tNew * duration) →
      (S.Setex w.storage key ⟨(count : ℚ), now, (limit : ℚ), duration⟩ duration).1 = none →
      (SingleThreadLimiter.Post S w key count limit duration tNew now).2.storage =
        (S.Setex w.storage key ⟨(count : ℚ), now, (limit : ℚ), duration⟩ duration).2 ∧
      (SingleThreadLimiter.Post S w key count limit duration tNew now).2.calls =
        w.calls ++ [StoreCall.Get key,
          StoreCall.Setex key ⟨(count : ℚ), now, (limit : ℚ), duration⟩ duration]) ∧
    (0 < duration → tNew ≤ now →
      (S.Setex w.storage key ⟨(count : ℚ), now, (limit : ℚ), duration⟩ duration).1 = none →
      (SingleThreadLimiter.Post S w key count limit duration tNew now).1 = some (count, none)) ∧
    (∀ b2 : TokenBucket, b2.Limit = (limit : ℚ) → b2.Duration = duration →
      postBucket (some b2) (limit : ℚ) duration tNew = b2) := by
  obtain ⟨_, hc, hl, hd⟩ := checkPostArgs_none key count limit duration hargs
  have hg := getTokenBucket_of_gob S w.storage key b hget
  have hnew : postBucket (GetTokenBucket S w.storage key).1 (limit : ℚ) duration tNew =
      NewTokenBucket (limit : ℚ) duration tNew := by
    rw [hg]
    simp only [postBucket]
    rw [if_pos hmis]
  have hna : ¬ ((GetTokenBucket S w.storage key).2 ≠ none ∧
      (GetTokenBucket S w.storage key).2 ≠ some Error.ErrNil) := by
    rw [hg]; simp
  have hiff := servePOST_new S w.storage ⟨POST, key, count, limit, duration⟩ tNew now
    hna hnew hc hl hd
  dsimp only at hiff
  have hpost := post_running S w key count limit duration tNew now hargs hrun
  have hmain : (SingleThreadLimiter.Post S w key count limit duration tNew now).1 =
      some (count, none) ↔
      ((tNew.Unix ≤ 0 ∨ 0 ≤ now.Sub tNew * duration) ∧
        (S.Setex w.storage key ⟨(count : ℚ), now, (limit : ℚ), duration⟩ duration).1 = none) := by
    rw [hpost, ← hiff]
    cases (servePOST S w.storage ⟨POST, key, count, limit, duration⟩ tNew now).sent with
    | none => simp
    | some r =>
      cases r
      simp
  refine ⟨hnew, hmain, ?_, ?_, ?_⟩
  · intro hD hw
    have hw2 := post_worker S w key count limit duration tNew now hargs hrun
    have hok := servePOST_new_ok S w.storage ⟨POST, key, count, limit, duration⟩ tNew now
      hna hnew hc hl hd hD hw
    rw [hw2.1, hw2.2.2, hok]
    exact ⟨rfl, rfl⟩
  · intro hpos hclk hw
    exact hmain.mpr ⟨Or.inr (mul_nonneg (sub_nonneg_of_le now tNew hclk) hpos.le), hw⟩
  · intro b2 h1 h2
    simp [postBucket, h1, h2]

/-- C8 on the in-memory store: `Incr` with limit 5, then `Incr` with limit 10
on the same key a second later, returns 1, and the bucket stored has `Used = 1`
and limit 10. -/
theorem post_param_mismatch_witness :
    (Ratelimit.Incr ⟨10, 10000000000⟩ memStorage
      (Ratelimit.Incr ⟨5, 10000000000⟩ memStorage (Worker.start []) "k"
        2000000000 2000000000).2 "k" 3000000000 3000000000).1 = some (1, none) ∧
    (Ratelimit.Incr ⟨10, 10000000000⟩ memStorage
      (Ratelimit.Incr ⟨5, 10000000000⟩ memStorage (Worker.start []) "k"
        2000000000 2000000000).2 "k" 3000000000 3000000000).2.storage =
      [("k", ⟨1, 3000000000, 10, 10000000000⟩, 10000000000)] := by
  have hw1 := post_worker memStorage (Worker.start ([] : MemStore)) "k" 1 5 10000000000
    2000000000 2000000000 (by decide) rfl
  have hg0 : GetTokenBucket memStorage (Worker.start ([] : MemStore)).storage
      (⟨POST, "k", 1, 5, 10000000000⟩ : request).key = (none, some Error.ErrNil) :=
    getTokenBucket_of_err memStorage _ _ Error.ErrNil rfl
  have hok := servePOST_new_ok memStorage (Worker.start ([] : MemStore)).storage
    ⟨POST, "k", 1, 5, 10000000000⟩ 2000000000 2000000000
    (by rw [hg0]; simp) (by rw [hg0]; rfl)
    (by decide) (by decide) (by decide) (Or.inr (by decide)) rfl
  rw [hok] at hw1
  dsimp only at hw1
  have hst : (Ratelimit.Incr ⟨5, 10000000000⟩ memStorage (Worker.start []) "k"
      2000000000 2000000000).2.storage =
      [("k", ⟨((1 : Int) : ℚ), 2000000000, ((5 : Int) : ℚ), 10000000000⟩, 10000000000)] := by
    rw [show (Ratelimit.Incr ⟨5, 10000000000⟩ memStorage (Worker.start []) "k"
      2000000000 2000000000) = SingleThreadLimiter.Post memStorage (Worker.start []) "k" 1 5
        10000000000 2000000000 2000000000 from rfl, hw1.1]
    simp [memStorage, Worker.start]
  have h := post_param_mismatch memStorage
    (Ratelimit.Incr ⟨5, 10000000000⟩ memStorage (Worker.start []) "k"
      2000000000 2000000000).2 "k" 1 10 10000000000 3000000000 3000000000
    ⟨((1 : Int) : ℚ), 2000000000, ((5 : Int) : ℚ), 10000000000⟩ (by decide) hw1.2.1
    (by rw [hst]; simp [memStorage, List.lookup]) (Or.inl (by norm_num))
  refine ⟨h.2.2.2.1 (by decide) (by decide) rfl, ?_⟩
  have h2 := (h.2.2.1 (Or.inr (by decide)) rfl).1
  rw [show (Ratelimit.Incr ⟨10, 10000000000⟩ memStorage
      (Ratelimit.Incr ⟨5, 10000000000⟩ memStorage (Worker.start []) "k"
        2000000000 2000000000).2 "k" 3000000000 3000000000) =
      SingleThreadLimiter.Post memStorage (Ratelimit.Incr ⟨5, 10000000000⟩ memStorage
        (Worker.start []) "k" 2000000000 2000000000).2 "k" 1 10 10000000000 3000000000
        3000000000 from rfl, h2, hst]
  simp [memStorage]

/-- C8 fails as stated: the store holds a bucket of limit 5 for the key; a
`Post` of one unit with limit 10 and a duration of minus ten seconds, accepted by
`checkPostArgs`, a second after the new bucket is made, is answered `(2, nil)`
and not `(1, nil)`, and the bucket written has `Used = 2`. -/
theorem post_param_mismatch_counterexample :
    checkPostArgs "k" 1 10 (-10000000000) = none ∧
    memStorage.Get [("k", ⟨3, 2000000000, 5, 10000000000⟩, 10000000000)] "k" =
      (some (Data.gob ⟨3, 2000000000, 5, 10000000000⟩), none) ∧
    (SingleThreadLimiter.Post memStorage
      (Worker.start [("k", ⟨3, 2000000000, 5, 10000000000⟩, 10000000000)]) "k" 1 10
      (-10000000000) 3000000000 4000000000).1 = some (2, none) ∧
    (SingleThreadLimiter.Post memStorage
      (Worker.start [("k", ⟨3, 2000000000, 5, 10000000000⟩, 10000000000)]) "k" 1 10
      (-10000000000) 3000000000 4000000000).2.storage =
      [("k", ⟨2, 4000000000, 10, -10000000000⟩, -10000000000)] := by
  have hget : memStorage.Get (Worker.start
      [("k", (⟨3, 2000000000, 5, 10000000000⟩ : TokenBucket), (10000000000 : Duration))]).storage
      "k" = (some (Data.gob ⟨3, 2000000000, 5, 10000000000⟩), none) := by
    simp [memStorage, Worker.start, List.lookup]
  have hg := getTokenBucket_of_gob memStorage _ _ _ hget
  have hcons : (NewTokenBucket ((10 : Int) : ℚ) (-10000000000) 3000000000).Consume
      ((1 : Int) : ℚ) 4000000000 = (none, ⟨2, 4000000000, 10, -10000000000⟩) := by
    rw [consume_of_le] <;>
      norm_num [NewTokenBucket, TokenBucket.GetAdjustedUsage, Time.Unix, Time.Sub, minDuration,
        maxDuration]
  have hpb : postBucket (some (⟨3, 2000000000, 5, 10000000000⟩ : TokenBucket)) ((10 : Int) : ℚ)
      (-10000000000) 3000000000 = NewTokenBucket ((10 : Int) : ℚ) (-10000000000) 3000000000 := by
    norm_num [postBucket]
  have hok := servePOST_ok memStorage (Worker.start
      [("k", (⟨3, 2000000000, 5, 10000000000⟩ : TokenBucket), (10000000000 : Duration))]).storage
    ⟨POST, "k", 1, 10, -10000000000⟩ 3000000000 4000000000
    (by rw [hg]; simp) (by rw [hg]; dsimp only; rw [hpb, hcons])
  rw [hg] at hok
  dsimp only at hok
  rw [hpb, hcons] at hok
  have hw := post_worker memStorage (Worker.start
      [("k", (⟨3, 2000000000, 5, 10000000000⟩ : TokenBucket), (10000000000 : Duration))])
    "k" 1 10 (-10000000000) 3000000000 4000000000 (by decide) rfl
  refine ⟨by decide, by simp [memStorage, List.lookup], ?_, ?_⟩
  · rw [post_running _ _ _ _ _ _ _ _ (by decide) rfl, hok]
    simp [memStorage, usage]
  · rw [hw.1, hok]
    simp [memStorage, Worker.start]

/-- A worker that is not running receives nothing. -/
theorem serve_not_running {σ : Type} (S : RedisStorage σ) (evs : List Event) (w : Worker σ)
    (h : w.status ≠ Status.Running) : serve S evs w = w := by
  cases evs with
  | nil => rfl
  | cons ev evs =>
    unfold serve
    split
    · rename_i hrun
      exact absurd hrun h
    · rfl

/-- A value received on `stopChan` changes nothing: the `break` ends the
`select`, and the `for` loop goes on to the next event. -/
theorem serve_stop {σ : Type} (S : RedisStorage σ) (evs : List Event) (w : Worker σ) :
    serve S (Event.stop :: evs) w = serve S evs w := by
  by_cases h : w.status = Status.Running
  · rw [serve, h]
    simp [selectStmt, caseBody, Signal.leaveBreakable]
  · rw [serve_not_running S _ w h, serve_not_running S _ w h]

/-- A request with method `GET` is served by the `case GET:` body. -/
theorem serveRequest_get {σ : Type} (S : RedisStorage σ) (st : σ) (req : request)
    (tNew now : Time) (hm : req.method = GET) :
    serveRequest S st req tNew now =
      { serveGET S st req now with
        signal := (serveGET S st req now).signal.leaveBreakable } := by
  unfold serveRequest
  simp only [if_pos hm]

/-- The GET branch calls the store once, to read, and leaves it as it is. -/
theorem serveGET_frame {σ : Type} (S : RedisStorage σ) (st : σ) (req : request) (now : Time) :
    (serveGET S st req now).calls = [StoreCall.Get req.key] ∧
      (serveGET S st req now).storage = st := by
  unfold serveGET
  rcases GetTokenBucket S st req.key with ⟨bucket, err⟩
  dsimp only
  split_ifs
  · exact ⟨rfl, rfl⟩
  · cases bucket <;> exact ⟨rfl, rfl⟩

/-- The GET branch with a stored bucket. -/
theorem serveGET_found {σ : Type} (S : RedisStorage σ) (st : σ) (req : request) (now : Time)
    (b : TokenBucket) (h : GetTokenBucket S st req.key = (some b, none)) :
    serveGET S st req now =
      ⟨st, some ⟨usage (b.GetAdjustedUsage now).1, none⟩, [StoreCall.Get req.key],
        Signal.normal⟩ := by
  unfold serveGET
  rw [h]
  simp

/-- The GET branch when the read reports an error. -/
theorem serveGET_err {σ : Type} (S : RedisStorage σ) (st : σ) (req : request) (now : Time)
    (e : Error) (h : GetTokenBucket S st req.key = (none, some e)) :
    serveGET S st req now = ⟨st, some ⟨0, some e⟩, [StoreCall.Get req.key], Signal.cont⟩ := by
  unfold serveGET
  rw [h]
  simp

/-- C9 on the code: `serve` receives a stop signal and then a GET request for
a key that holds a bucket with `Used = 1`; the request is dequeued and answered
`(1, nil)`, and the worker is still running. The same holds for every
continuation: a stop signal leaves the run of `serve` as it would be without it. -/
theorem stop_not_terminal :
    serve memStorage
      [Event.stop, Event.recv ⟨GET, "k", 0, 0, 0⟩ 2000000000 2000000000]
      (Worker.start [("k", ⟨1, 2000000000, 10, 10000000000⟩, 10000000000)]) =
      ⟨[("k", ⟨1, 2000000000, 10, 10000000000⟩, 10000000000)], Status.Running,
        [(⟨GET, "k", 0, 0, 0⟩, ⟨1, none⟩)], [StoreCall.Get "k"]⟩ ∧
    (∀ (evs : List Event) (w : Worker MemStore),
      serve memStorage (Event.stop :: evs) w = serve memStorage evs w) := by
  refine ⟨?_, fun evs w => serve_stop memStorage evs w⟩
  have hg : GetTokenBucket memStorage (Worker.start
      [("k", (⟨1, 2000000000, 10, 10000000000⟩ : TokenBucket), (10000000000 : Duration))]).storage
      (⟨GET, "k", 0, 0, 0⟩ : request).key = (some ⟨1, 2000000000, 10, 10000000000⟩, none) :=
    getTokenBucket_of_gob memStorage _ _ _ (by simp [memStorage, Worker.start, List.lookup])
  have hu : usage (TokenBucket.GetAdjustedUsage ⟨1, 2000000000, 10, 10000000000⟩ 2000000000).1
      = 1 := by
    norm_num [usage, TokenBucket.GetAdjustedUsage, Time.Unix, Time.Sub, minDuration, maxDuration]
  have hreq : serveRequest memStorage (Worker.start
      [("k", (⟨1, 2000000000, 10, 10000000000⟩ : TokenBucket), (10000000000 : Duration))]).storage
      ⟨GET, "k", 0, 0, 0⟩ 2000000000 2000000000 =
      ⟨[("k", ⟨1, 2000000000, 10, 10000000000⟩, 10000000000)], some ⟨1, none⟩,
        [StoreCall.Get "k"], Signal.normal⟩ := by
    rw [serveRequest_get _ _ _ _ _ rfl, serveGET_found _ _ _ _ _ hg, hu]
    rfl
  rw [serve_stop, serve_recv _ _ _ _ _ rfl (by rw [hreq]; exact Or.inl rfl), hreq]
  rfl

/-- C10: when a GET request is served and the store holds a bucket `b` for the
key, the worker replies `(ceil(b.GetAdjustedUsage(now)), nil)`; when the store
reports not-found it replies with that error and not with a nil error; in every
case the read is the only call made on the store, which is the same before and
after. -/
theorem get_reply {σ : Type} (S : RedisStorage σ) (st : σ) (req : request)
    (tNew now : Time) (hm : req.method = GET) :
    (∀ b : TokenBucket, S.Get st req.key = (some (Data.gob b), none) →
      (serveRequest S st req tNew now).sent = some ⟨⌈(b.GetAdjustedUsage now).1⌉, none⟩) ∧
    ((S.Get st req.key).2 = some Error.ErrNil →
      (serveRequest S st req tNew now).sent = some ⟨0, some Error.ErrNil⟩) ∧
    (serveRequest S st req tNew now).calls = [StoreCall.Get req.key] ∧
    (serveRequest S st req tNew now).storage = st := by
  rw [serveRequest_get S st req tNew now hm]
  dsimp only
  refine ⟨?_, ?_, (serveGET_frame S st req now).1, (serveGET_frame S st req now).2⟩
  · intro b hb
    rw [serveGET_found S st req now b (getTokenBucket_of_gob S st req.key b hb)]
    rfl
  · intro hmiss
    rw [serveGET_err S st req now _ (getTokenBucket_of_err S st req.key _ hmiss)]

/-- C10 on the in-memory store: a GET five seconds into the ten second window
of a bucket with `Used = 7` and limit 10 is answered `(2, nil)`; a GET on a key
the store does not hold is answered with `redis.ErrNil`; the store is untouched. -/
theorem get_reply_witness :
    (serveRequest memStorage [("k", ⟨7, 2000000000, 10, 10000000000⟩, 10000000000)]
      ⟨GET, "k", 0, 0, 0⟩ 7000000000 7000000000).sent = some ⟨2, none⟩ ∧
    (serveRequest memStorage [("k", ⟨7, 2000000000, 10, 10000000000⟩, 10000000000)]
      ⟨GET, "j", 0, 0, 0⟩ 7000000000 7000000000).sent = some ⟨0, some Error.ErrNil⟩ ∧
    (serveRequest memStorage [("k", ⟨7, 2000000000, 10, 10000000000⟩, 10000000000)]
      ⟨GET, "k", 0, 0, 0⟩ 7000000000 7000000000).calls = [StoreCall.Get "k"] ∧
    (serveRequest memStorage [("k", ⟨7, 2000000000, 10, 10000000000⟩, 10000000000)]
      ⟨GET, "k", 0, 0, 0⟩ 7000000000 7000000000).storage =
      [("k", ⟨7, 2000000000, 10, 10000000000⟩, 10000000000)] := by
  have hk := get_reply memStorage [("k", ⟨7, 2000000000, 10, 10000000000⟩, 10000000000)]
    ⟨GET, "k", 0, 0, 0⟩ 7000000000 7000000000 rfl
  have hj := get_reply memStorage [("k", ⟨7, 2000000000, 10, 10000000000⟩, 10000000000)]
    ⟨GET, "j", 0, 0, 0⟩ 7000000000 7000000000 rfl
  have hu : ⌈(TokenBucket.GetAdjustedUsage ⟨7, 2000000000, 10, 10000000000⟩ 7000000000).1⌉
      = 2 := by
    norm_num [TokenBucket.GetAdjustedUsage, Time.Unix, Time.Sub, minDuration, maxDuration]
  refine ⟨?_, hj.2.1 (by simp [memStorage, List.lookup]), hk.2.2.1, hk.2.2.2⟩
  rw [hk.1 ⟨7, 2000000000, 10, 10000000000⟩ (by simp [memStorage, List.lookup]), hu]

/-- C11: when `checkPostArgs` returns an error `e`, `Post` returns `(0, e)` and
the worker is the one before the call, whatever state it is in: no request is
served, no call is made on the store, and the store is the same. -/
theorem post_invalid_args {σ : Type} (S : RedisStorage σ) (w : Worker σ) (key : String)
    (count limit : Int) (duration : Duration) (tNew now : Time) (e : Error)
    (h : checkPostArgs key count limit duration = some e) :
    (SingleThreadLimiter.Post S w key count limit duration tNew now).1 = some (0, some e) ∧
    (SingleThreadLimiter.Post S w key count limit duration tNew now).2 = w ∧
    (SingleThreadLimiter.Post S w key count limit duration tNew now).2.storage = w.storage ∧
    (SingleThreadLimiter.Post S w key count limit duration tNew now).2.calls = w.calls ∧
    (SingleThreadLimiter.Post S w key count limit duration tNew now).2.replies = w.replies := by
  unfold SingleThreadLimiter.Post
  rw [h]
  exact ⟨rfl, rfl, rfl, rfl, rfl⟩

/-- C11 on the in-memory store: a `Post` with a blank key and one with a count
above the limit return at once; the worker has served nothing and called
nothing. -/
theorem post_invalid_args_witness :
    (SingleThreadLimiter.Post memStorage (Worker.start []) " " 1 10 Second 2000000000
      2000000000).1 = some (0, some Error.ErrKeyEmpty) ∧
    (SingleThreadLimiter.Post memStorage (Worker.start []) "k" 11 10 Second 2000000000
      2000000000).1 = some (0, some Error.ErrCountLimit) ∧
    (SingleThreadLimiter.Post memStorage (Worker.start []) "k" 11 10 Second 2000000000
      2000000000).2.calls = [] ∧
    (SingleThreadLimiter.Post memStorage (Worker.start []) "k" 11 10 Second 2000000000
      2000000000).2.storage = [] := by
  have h1 := post_invalid_args memStorage (Worker.start []) " " 1 10 Second 2000000000
    2000000000 Error.ErrKeyEmpty (by decide)
  have h2 := post_invalid_args memStorage (Worker.start []) "k" 11 10 Second 2000000000
    2000000000 Error.ErrCountLimit (by decide)
  exact ⟨h1.1, h2.1, h2.2.2.2.1, h2.2.2.1⟩

/-- A request with method `DELETE` is served by the `case DELETE:` body. -/
theorem serveRequest_delete {σ : Type} (S : RedisStorage σ) (st : σ) (req : request)
    (tNew now : Time) (hm : req.method = DELETE) :
    serveRequest S st req tNew now =
      ⟨(S.Delete st req.key).2, some ⟨0, (S.Delete st req.key).1⟩,
        [StoreCall.Delete req.key], Signal.normal⟩ := by
  unfold serveRequest
  have h1 : ¬ req.method = GET := by rw [hm]; decide
  simp only [if_neg h1, if_pos hm]
  rfl

/-- A request with a method code other than the three known ones is served by
the `default:` body. -/
theorem serveRequest_default {σ : Type} (S : RedisStorage σ) (st : σ) (req : request)
    (tNew now : Time) (h1 : req.method ≠ GET) (h2 : req.method ≠ POST)
    (h3 : req.method ≠ DELETE) :
    serveRequest S st req tNew now =
      ⟨st, some ⟨0, some (Error.errorsNew "Undefined Method")⟩, [], Signal.cont⟩ := by
  unfold serveRequest
  simp only [if_neg h1, if_neg h2, if_neg h3]
  rfl

/-- A request received by a running worker, when serving it does not panic:
the loop goes on with the remaining events. -/
theorem serve_recv_cons {σ : Type} (S : RedisStorage σ) (w : Worker σ) (req : request)
    (tNew now : Time) (evs : List Event) (hrun : w.status = Status.Running)
    (hsig : (serveRequest S w.storage req tNew now).signal = Signal.normal ∨
      (serveRequest S w.storage req tNew now).signal = Signal.cont) :
    serve S (Event.recv req tNew now :: evs) w =
      serve S evs ⟨(serveRequest S w.storage req tNew now).storage, Status.Running,
        (match (serveRequest S w.storage req tNew now).sent with
          | some r => w.replies ++ [(req, r)]
          | none => w.replies),
        w.calls ++ (serveRequest S w.storage req tNew now).calls⟩ := by
  rw [serve, hrun]
  dsimp only
  unfold selectStmt caseBody
  dsimp only
  rcases hsig with h | h <;> rw [h] <;> simp [Signal.leaveBreakable, hrun]

/-- Events received one batch after another are the events received in one run. -/
theorem serve_append {σ : Type} (S : RedisStorage σ) (evs1 evs2 : List Event) (w : Worker σ) :
    serve S (evs1 ++ evs2) w = serve S evs2 (serve S evs1 w) := by
  induction evs1 generalizing w with
  | nil => rfl
  | cons ev evs ih =>
    by_cases hrun : w.status = Status.Running
    · rw [List.cons_append, serve, serve, hrun]
      dsimp only
      rcases hsel : selectStmt S w ev with ⟨w1, sig⟩
      cases sig with
      | normal => exact ih w1
      | cont => exact ih w1
      | brk =>
        dsimp only
        rw [serve_not_running S evs2 _ (by simp)]
      | panicked =>
        dsimp only
        rw [serve_not_running S evs2 _ (by simp)]
    · rw [serve_not_running S _ w hrun, serve_not_running S _ w hrun,
        serve_not_running S _ w hrun]

/-- Serving a POST request never panics and never leaves the loop. -/
theorem serveRequest_post_signal {σ : Type} (S : RedisStorage σ) (st : σ) (req : request)
    (tNew now : Time) (hm : req.method = POST) :
    (serveRequest S st req tNew now).signal = Signal.normal ∨
      (serveRequest S st req tNew now).signal = Signal.cont := by
  rw [serveRequest_post S st req tNew now hm]
  dsimp only
  rcases servePOST_signal S st req tNew now with h | h <;> rw [h]
  · exact Or.inl rfl
  · exact Or.inr rfl

/-- The worker after one request that does not panic is running. -/
theorem serve_recv_status {σ : Type} (S : RedisStorage σ) (w : Worker σ) (req : request)
    (tNew now : Time) (hrun : w.status = Status.Running)
    (hsig : (serveRequest S w.storage req tNew now).signal = Signal.normal ∨
      (serveRequest S w.storage req tNew now).signal = Signal.cont) :
    (serve S [Event.recv req tNew now] w).status = Status.Running := by
  rw [serve_recv S w req tNew now hrun hsig]

/-- C12: a running worker returns store failures as they are and keeps
running. A POST whose read fails with an error other than `redis.ErrNil` is
answered `(0, that error)` and the read is its only store call; a POST whose
write fails is answered `(0, that error)`; a GET whose read fails is answered
`(0, that error)`; a DELETE is answered with what the store's `Delete` returns;
after each of these the worker is running, and the events that follow are served
as they are by the worker that reply left. -/
theorem store_failures_reported {σ : Type} (S : RedisStorage σ) (w : Worker σ) (req : request)
    (tNew now : Time) (e : Error) (hrun : w.status = Status.Running) :
    (req.method = POST → (S.Get w.storage req.key).2 = some e → e ≠ Error.ErrNil →
      (serveRequest S w.storage req tNew now).sent = some ⟨0, some e⟩ ∧
      (serveRequest S w.storage req tNew now).calls = [StoreCall.Get req.key] ∧
      (serveRequest S w.storage req tNew now).storage = w.storage ∧
      (serve S [Event.recv req tNew now] w).status = Status.Running) ∧
    (req.method = POST →
      ((GetTokenBucket S w.storage req.key).2 = none ∨
        (GetTokenBucket S w.storage req.key).2 = some Error.ErrNil) →
      ((postBucket (GetTokenBucket S w.storage req.key).1 (req.limit : ℚ) req.duration
        tNew).Consume (req.count : ℚ) now).1 = none →
      (S.Setex w.storage req.key ((postBucket (GetTokenBucket S w.storage req.key).1
        (req.limit : ℚ) req.duration tNew).Consume (req.count : ℚ) now).2 req.duration).1 =
        some e →
      (serveRequest S w.storage req tNew now).sent = some ⟨0, some e⟩ ∧
      (serve S [Event.recv req tNew now] w).status = Status.Running) ∧
    (req.method = GET → (S.Get w.storage req.key).2 = some e →
      (serveRequest S w.storage req tNew now).sent = some ⟨0, some e⟩ ∧
      (serve S [Event.recv req tNew now] w).status = Status.Running) ∧
    (req.method = DELETE →
      (serveRequest S w.storage req tNew now).sent =
        some ⟨0, (S.Delete w.storage req.key).1⟩ ∧
      (serve S [Event.recv req tNew now] w).status = Status.Running) ∧
    (∀ evs : List Event, serve S (Event.recv req tNew now :: evs) w =
      serve S evs (serve S [Event.recv req tNew now] w)) := by
  refine ⟨?_, ?_, ?_, ?_, ?_⟩
  · intro hm hget hne
    have hg := getTokenBucket_of_err S w.storage req.key e hget
    have hab := servePOST_abort S w.storage req tNew now
      (by rw [hg]; exact ⟨by simp, by simpa using hne⟩)
    refine ⟨?_, ?_, ?_, serve_recv_status S w req tNew now hrun
      (serveRequest_post_signal S w.storage req tNew now hm)⟩
    · rw [serveRequest_post S w.storage req tNew now hm, hab, hg]
    · rw [serveRequest_post S w.storage req tNew now hm, hab]
    · rw [serveRequest_post S w.storage req tNew now hm, hab]
  · intro hm hread hcons hw
    have hna : ¬ ((GetTokenBucket S w.storage req.key).2 ≠ none ∧
        (GetTokenBucket S w.storage req.key).2 ≠ some Error.ErrNil) := by
      rintro ⟨h1, h2⟩
      rcases hread with h | h
      · exact h1 h
      · exact h2 h
    refine ⟨?_, serve_recv_status S w req tNew now hrun
      (serveRequest_post_signal S w.storage req tNew now hm)⟩
    rw [serveRequest_post S w.storage req tNew now hm,
      servePOST_ok S w.storage req tNew now hna hcons]
    simp [hw]
  · intro hm hget
    have hg := getTokenBucket_of_err S w.storage req.key e hget
    have hreq : serveRequest S w.storage req tNew now =
        ⟨w.storage, some ⟨0, some e⟩, [StoreCall.Get req.key], Signal.cont⟩ := by
      rw [serveRequest_get S w.storage req tNew now hm, serveGET_err S w.storage req now e hg]
      rfl
    exact ⟨by rw [hreq], serve_recv_status S w req tNew now hrun (by rw [hreq]; exact Or.inr rfl)⟩
  · intro hm
    have hreq := serveRequest_delete S w.storage req tNew now hm
    exact ⟨by rw [hreq], serve_recv_status S w req tNew now hrun (by rw [hreq]; exact Or.inl rfl)⟩
  · intro evs
    exact serve_append S [Event.recv req tNew now] evs w

/-- C12 on stores that fail: with the connection lost, a POST, a GET and a
DELETE are each answered with the store's error and the worker runs on; with
writes failing, a first POST is answered with the error of the write. -/
theorem store_failures_reported_witness :
    (serveRequest brokenStore [] ⟨POST, "k", 1, 10, 10000000000⟩ 2000000000
      2000000000).sent = some ⟨0, some (Error.storage "connection refused")⟩ ∧
    (serve brokenStore [Event.recv ⟨POST, "k", 1, 10, 10000000000⟩ 2000000000 2000000000]
      (Worker.start [])).status = Status.Running ∧
    (serveRequest brokenStore [] ⟨GET, "k", 0, 0, 0⟩ 2000000000 2000000000).sent =
      some ⟨0, some (Error.storage "connection refused")⟩ ∧
    (serveRequest brokenStore [] ⟨DELETE, "k", 0, 0, 0⟩ 2000000000 2000000000).sent =
      some ⟨0, some (Error.storage "connection refused")⟩ ∧
    (serveRequest brokenWrites [] ⟨POST, "k", 1, 10, 10000000000⟩ 2000000000
      2000000000).sent = some ⟨0, some (Error.storage "connection refused")⟩ := by
  have hp := store_failures_reported brokenStore (Worker.start [])
    ⟨POST, "k", 1, 10, 10000000000⟩ 2000000000 2000000000
    (Error.storage "connection refused") rfl
  have hg := store_failures_reported brokenStore (Worker.start [])
    ⟨GET, "k", 0, 0, 0⟩ 2000000000 2000000000 (Error.storage "connection refused") rfl
  have hd := store_failures_reported brokenStore (Worker.start [])
    ⟨DELETE, "k", 0, 0, 0⟩ 2000000000 2000000000 (Error.storage "connection refused") rfl
  have hw := store_failures_reported brokenWrites (Worker.start [])
    ⟨POST, "k", 1, 10, 10000000000⟩ 2000000000 2000000000
    (Error.storage "connection refused") rfl
  have hgt : GetTokenBucket brokenWrites (Worker.start ([] : MemStore)).storage
      (⟨POST, "k", 1, 10, 10000000000⟩ : request).key = (none, some Error.ErrNil) :=
    getTokenBucket_of_err brokenWrites _ _ Error.ErrNil rfl
  have hcons : (NewTokenBucket ((10 : Int) : ℚ) 10000000000 2000000000).Consume
      ((1 : Int) : ℚ) 2000000000 = (none, ⟨1, 2000000000, 10, 10000000000⟩) := by
    rw [consume_of_le] <;>
      norm_num [NewTokenBucket, TokenBucket.GetAdjustedUsage, Time.Unix, Time.Sub, minDuration,
        maxDuration]
  have hp1 := hp.1 rfl rfl (by decide)
  refine ⟨hp1.1, hp1.2.2.2, (hg.2.2.1 rfl rfl).1, (hd.2.2.2.1 rfl).1, ?_⟩
  refine (hw.2.1 rfl (by rw [hgt]; exact Or.inr rfl) ?_ ?_).1
  · rw [hgt]
    simp only [postBucket]
    rw [hcons]
  · rfl

/-- The bucket the POST branch consumes from has the limit and the duration of
the request. -/
theorem postBucket_params (bucket : Option TokenBucket) (limit : ℚ) (duration : Duration)
    (tNew : Time) :
    (postBucket bucket limit duration tNew).Limit = limit ∧
      (postBucket bucket limit duration tNew).Duration = duration := by
  unfold postBucket
  cases bucket with
  | none => exact ⟨rfl, rfl⟩
  | some b =>
    dsimp only
    split_ifs with h
    · exact ⟨rfl, rfl⟩
    · push_neg at h
      exact h

/-- A successful `Consume` stays within the limit and writes the new usage. -/
theorem consume_none (b : TokenBucket) (count : ℚ) (now : Time)
    (h : (b.Consume count now).1 = none) :
    (b.GetAdjustedUsage now).1 + count ≤ b.Limit ∧
      (b.Consume count now).2 =
        ⟨(b.GetAdjustedUsage now).1 + count, now, b.Limit, b.Duration⟩ := by
  by_cases hle : (b.GetAdjustedUsage now).1 + count ≤ b.Limit
  · exact ⟨hle, by rw [consume_of_le b count now hle]⟩
  · rw [consume_of_gt b count now (not_le.mp hle)] at h
    simp at h

/-- A `Setex` among the calls of the POST branch is the write of the consumed
bucket, after a successful `Consume`, for the request's key and duration. -/
theorem servePOST_setex {σ : Type} (S : RedisStorage σ) (st : σ) (req : request)
    (tNew now : Time) (k : String) (v : TokenBucket) (ex : Duration)
    (h : StoreCall.Setex k v ex ∈ (servePOST S st req tNew now).calls) :
    ((postBucket (GetTokenBucket S st req.key).1 (req.limit : ℚ) req.duration
        tNew).Consume (req.count : ℚ) now).1 = none ∧
      v = ((postBucket (GetTokenBucket S st req.key).1 (req.limit : ℚ) req.duration
        tNew).Consume (req.count : ℚ) now).2 ∧
      k = req.key ∧ ex = req.duration := by
  by_cases ha : (GetTokenBucket S st req.key).2 ≠ none ∧
      (GetTokenBucket S st req.key).2 ≠ some Error.ErrNil
  · rw [servePOST_abort S st req tNew now ha] at h
    simp at h
  · by_cases hc : ((postBucket (GetTokenBucket S st req.key).1 (req.limit : ℚ) req.duration
        tNew).Consume (req.count : ℚ) now).1 = none
    · rw [servePOST_ok S st req tNew now ha hc] at h
      simp at h
      exact ⟨hc, h.2.1, h.1, h.2.2⟩
    · rw [servePOST_fail S st req tNew now ha hc] at h
      simp at h

/-- C13, as amended: for a `Post` with arguments accepted by `checkPostArgs`,
the bucket that the worker makes has `Limit > 0` and a `Duration` that is not
zero, and so has every bucket it hands to `Setex`: its `Limit` is the request's
limit, its `Duration` the request's duration, which is positive exactly when
the request's duration is. -/
theorem live_bucket_params {σ : Type} (S : RedisStorage σ) (w : Worker σ) (key : String)
    (count limit : Int) (duration : Duration) (tNew now : Time)
    (hargs : checkPostArgs key count limit duration = none)
    (hrun : w.status = Status.Running) :
    (0 < (NewTokenBucket (limit : ℚ) duration tNew).Limit ∧
      (NewTokenBucket (limit : ℚ) duration tNew).Duration ≠ 0) ∧
    (SingleThreadLimiter.Post S w key count limit duration tNew now).2.calls =
      w.calls ++ (servePOST S w.storage ⟨POST, key, count, limit, duration⟩ tNew now).calls ∧
    (∀ (k : String) (v : TokenBucket) (ex : Duration),
      StoreCall.Setex k v ex ∈
        (servePOST S w.storage ⟨POST, key, count, limit, duration⟩ tNew now).calls →
      0 < v.Limit ∧ v.Duration ≠ 0 ∧ v.Limit = (limit : ℚ) ∧ v.Duration = duration ∧
        (0 < v.Duration ↔ 0 < duration)) := by
  obtain ⟨_, hc, hl, hd⟩ := checkPostArgs_none key count limit duration hargs
  have hlq : (0 : ℚ) < (limit : ℚ) := by
    have : 0 < limit := lt_of_lt_of_le hc hl
    exact_mod_cast this
  refine ⟨⟨hlq, hd⟩, (post_worker S w key count limit duration tNew now hargs hrun).2.2, ?_⟩
  intro k v ex hmem
  obtain ⟨hnone, hv, _, _⟩ :=
    servePOST_setex S w.storage ⟨POST, key, count, limit, duration⟩ tNew now k v ex hmem
  dsimp only at hnone hv
  have hp := postBucket_params (GetTokenBucket S w.storage key).1 (limit : ℚ) duration tNew
  have hcn := (consume_none _ _ _ hnone).2
  rw [hcn] at hv
  have h1 : v.Limit = (limit : ℚ) := by rw [hv]; exact hp.1
  have h2 : v.Duration = duration := by rw [hv]; exact hp.2
  exact ⟨by rw [h1]; exact hlq, by rw [h2]; exact hd, h1, h2, by rw [h2]⟩

/-- C13 on the in-memory store: the first `Post` with limit 10 and a ten
second window writes a bucket with `Limit = 10` and `Duration = 10s`. -/
theorem live_bucket_params_witness :
    (SingleThreadLimiter.Post memStorage (Worker.start []) "k" 1 10 10000000000 2000000000
      2000000000).2.calls =
      [StoreCall.Get "k", StoreCall.Setex "k" ⟨1, 2000000000, 10, 10000000000⟩ 10000000000] ∧
    (0 : ℚ) < (⟨1, 2000000000, 10, 10000000000⟩ : TokenBucket).Limit ∧
    (0 : Int) < (⟨1, 2000000000, 10, 10000000000⟩ : TokenBucket).Duration := by
  have h := live_bucket_params memStorage (Worker.start []) "k" 1 10 10000000000 2000000000
    2000000000 (by decide) rfl
  have hg0 : GetTokenBucket memStorage (Worker.start ([] : MemStore)).storage
      (⟨POST, "k", 1, 10, 10000000000⟩ : request).key = (none, some Error.ErrNil) :=
    getTokenBucket_of_err memStorage _ _ Error.ErrNil rfl
  have hok := servePOST_new_ok memStorage (Worker.start ([] : MemStore)).storage
    ⟨POST, "k", 1, 10, 10000000000⟩ 2000000000 2000000000
    (by rw [hg0]; simp) (by rw [hg0]; rfl)
    (by decide) (by decide) (by decide) (Or.inr (by decide)) rfl
  have hcalls : (servePOST memStorage (Worker.start ([] : MemStore)).storage
      ⟨POST, "k", 1, 10, 10000000000⟩ 2000000000 2000000000).calls =
      [StoreCall.Get "k",
        StoreCall.Setex "k" ⟨1, 2000000000, 10, 10000000000⟩ 10000000000] := by
    rw [hok]
    norm_num
  have hb := h.2.2 "k" ⟨1, 2000000000, 10, 10000000000⟩ 10000000000
    (by rw [hcalls]; simp)
  refine ⟨?_, hb.1, hb.2.2.2.2.mpr (by decide)⟩
  rw [h.2.1, hcalls]
  rfl

/-- C13 fails as stated: `checkPostArgs` accepts a duration of minus ten
seconds, and the first `Post` with it on an empty store, consumed a second
after the bucket is made, stores a bucket whose `Duration` is negative. -/
theorem live_bucket_params_counterexample :
    checkPostArgs "k" 1 10 (-10000000000) = none ∧
    (SingleThreadLimiter.Post memStorage (Worker.start []) "k" 1 10 (-10000000000)
      2000000000 3000000000).2.storage =
      [("k", ⟨2, 3000000000, 10, -10000000000⟩, -10000000000)] ∧
    ¬ (0 : Int) < (⟨2, 3000000000, 10, -10000000000⟩ : TokenBucket).Duration := by
  have hg : GetTokenBucket memStorage (Worker.start ([] : MemStore)).storage
      (⟨POST, "k", 1, 10, -10000000000⟩ : request).key = (none, some Error.ErrNil) :=
    getTokenBucket_of_err memStorage _ _ Error.ErrNil rfl
  have hcons : (NewTokenBucket ((10 : Int) : ℚ) (-10000000000) 2000000000).Consume
      ((1 : Int) : ℚ) 3000000000 = (none, ⟨2, 3000000000, 10, -10000000000⟩) := by
    rw [consume_of_le] <;>
      norm_num [NewTokenBucket, TokenBucket.GetAdjustedUsage, Time.Unix, Time.Sub, minDuration,
        maxDuration]
  have hok := servePOST_ok memStorage (Worker.start ([] : MemStore)).storage
    ⟨POST, "k", 1, 10, -10000000000⟩ 2000000000 3000000000
    (by rw [hg]; simp) (by rw [hg]; simp only [postBucket]; rw [hcons])
  rw [hg] at hok
  simp only [postBucket] at hok
  rw [hcons] at hok
  have hw := post_worker memStorage (Worker.start ([] : MemStore)) "k" 1 10 (-10000000000)
    2000000000 3000000000 (by decide) rfl
  refine ⟨by decide, ?_, by decide⟩
  rw [hw.1, hok]
  simp [memStorage, Worker.start]

/-- A `Consume` of a count that is not negative keeps `Used` from going negative. -/
theorem consume_used_nonneg (b : TokenBucket) (count : ℚ) (now : Time) (hb : 0 ≤ b.Used)
    (hc : 0 ≤ count) : 0 ≤ (b.Consume count now).2.Used := by
  rcases consume_err b count now with h | ⟨_, h⟩
  · rw [(consume_none b count now h).2]
    exact add_nonneg (getAdjustedUsage_nonneg b now hb) hc
  · rw [h]
    exact hb

/-- A sequence of `Consume` calls with positive counts keeps `Used` from going negative. -/
theorem consumeAll_used_nonneg (calls : List (ℚ × Time)) (b : TokenBucket) (hb : 0 ≤ b.Used)
    (hpos : ∀ c ∈ calls, 0 < c.1) : 0 ≤ (consumeAll b calls).Used := by
  induction calls generalizing b with
  | nil => exact hb
  | cons c rest ih =>
    rcases c with ⟨count, now⟩
    have hc : 0 < count := hpos (count, now) (List.mem_cons_self _ _)
    exact ih (b.Consume count now).2 (consume_used_nonneg b count now hb hc.le)
      (fun c hmem => hpos c (List.mem_cons_of_mem _ hmem))

/-- C14: for every bucket reached from `NewTokenBucket` by a sequence of
`Consume` calls with positive counts, whatever their clock readings, `Used` is
not negative, and `GetAdjustedUsage(now)` is not negative at any time `now`,
times before `LastAccessTime` included. -/
theorem usage_never_negative (limit : ℚ) (duration : Duration) (t0 : Time)
    (calls : List (ℚ × Time)) (hpos : ∀ c ∈ calls, 0 < c.1) :
    0 ≤ (consumeAll (NewTokenBucket limit duration t0) calls).Used ∧
    (∀ now : Time,
      0 ≤ ((consumeAll (NewTokenBucket limit duration t0) calls).GetAdjustedUsage now).1) := by
  have h := consumeAll_used_nonneg calls (NewTokenBucket limit duration t0) (le_refl _) hpos
  exact ⟨h, fun now => getAdjustedUsage_nonneg _ now h⟩

/-- C14 at a concrete run: a bucket of limit 10 and a ten second window made at
two seconds, consumed from at three seconds and then, with the clock set back,
at one second, and read at time zero. -/
theorem usage_never_negative_witness :
    (0 : ℚ) ≤ (consumeAll (NewTokenBucket 10 10000000000 2000000000)
      [(1, 3000000000), (2, 1000000000)]).Used ∧
    (0 : ℚ) ≤ ((consumeAll (NewTokenBucket 10 10000000000 2000000000)
      [(1, 3000000000), (2, 1000000000)]).GetAdjustedUsage 0).1 := by
  have h := usage_never_negative 10 10000000000 2000000000 [(1, 3000000000), (2, 1000000000)]
    (by
      intro c hc
      simp only [List.mem_cons, List.mem_singleton, List.not_mem_nil, or_false] at hc
      rcases hc with rfl | rfl <;> norm_num)
  exact ⟨h.1, h.2 0⟩

/-- C15: a request whose method code is none of `GET`, `POST`, `DELETE` is
answered with usage 0 and the error "Undefined Method"; no call is made on the
store, which stays as it is; and a running worker is still running afterwards
and goes on with the events that follow. -/
theorem undefined_method {σ : Type} (S : RedisStorage σ) (w : Worker σ) (req : request)
    (tNew now : Time) (h1 : req.method ≠ GET) (h2 : req.method ≠ POST)
    (h3 : req.method ≠ DELETE) (hrun : w.status = Status.Running) :
    (serveRequest S w.storage req tNew now).sent =
      some ⟨0, some (Error.errorsNew "Undefined Method")⟩ ∧
    (serveRequest S w.storage req tNew now).calls = [] ∧
    (serveRequest S w.storage req tNew now).storage = w.storage ∧
    serve S [Event.recv req tNew now] w =
      ⟨w.storage, Status.Running,
        w.replies ++ [(req, ⟨0, some (Error.errorsNew "Undefined Method")⟩)], w.calls⟩ ∧
    (∀ evs : List Event, serve S (Event.recv req tNew now :: evs) w =
      serve S evs (serve S [Event.recv req tNew now] w)) := by
  have hreq := serveRequest_default S w.storage req tNew now h1 h2 h3
  refine ⟨by rw [hreq], by rw [hreq], by rw [hreq], ?_,
    fun evs => serve_append S [Event.recv req tNew now] evs w⟩
  rw [serve_recv S w req tNew now hrun (by rw [hreq]; exact Or.inr rfl), hreq]
  simp

/-- C15 on the in-memory store: a request with method code 7 is answered
"Undefined Method" and the worker, still running, has called nothing. -/
theorem undefined_method_witness :
    serve memStorage [Event.recv ⟨7, "k", 0, 0, 0⟩ 2000000000 2000000000]
      (Worker.start []) =
      ⟨[], Status.Running,
        [(⟨7, "k", 0, 0, 0⟩, ⟨0, some (Error.errorsNew "Undefined Method")⟩)], []⟩ := by
  have h := undefined_method memStorage (Worker.start []) ⟨7, "k", 0, 0, 0⟩ 2000000000
    2000000000 (by decide) (by decide) (by decide) rfl
  rw [h.2.2.2.1]
  rfl

/-- The calls recorded by a running worker after one request are its calls
before followed by those of the step, however the step ends. -/
theorem serve_recv_calls {σ : Type} (S : RedisStorage σ) (w : Worker σ) (req : request)
    (tNew now : Time) (hrun : w.status = Status.Running) :
    (serve S [Event.recv req tNew now] w).calls =
        w.calls ++ (serveRequest S w.storage req tNew now).calls ∧
      (serve S [Event.recv req tNew now] w).storage =
        (serveRequest S w.storage req tNew now).storage := by
  rw [serve, hrun]
  dsimp only
  unfold selectStmt caseBody
  dsimp only
  cases (serveRequest S w.storage req tNew now).signal <;>
    simp [Signal.leaveBreakable, serve]

/-- C16, as amended: `Get` and `Delete` validate nothing. On a running worker,
for every key, blank or not, `Get` sends a GET request that the worker serves
with one read of the store and returns the worker's response, the store's error
when the read reports one; `Delete` sends a DELETE request that the worker
serves with one `Delete` on the store and returns the error the store gives. -/
theorem get_delete_forward {σ : Type} (S : RedisStorage σ) (w : Worker σ) (key : String)
    (now : Time) (hrun : w.status = Status.Running) :
    (SingleThreadLimiter.Get S w key now).1 =
      (serveGET S w.storage ⟨GET, key, 0, 0, 0⟩ now).sent.map (fun r => (r.used, r.err)) ∧
    (SingleThreadLimiter.Get S w key now).2.calls = w.calls ++ [StoreCall.Get key] ∧
    (∀ e : Error, (S.Get w.storage key).2 = some e →
      (SingleThreadLimiter.Get S w key now).1 = some (0, some e)) ∧
    (SingleThreadLimiter.Delete S w key).1 = some (S.Delete w.storage key).1 ∧
    (SingleThreadLimiter.Delete S w key).2.calls = w.calls ++ [StoreCall.Delete key] ∧
    (SingleThreadLimiter.Delete S w key).2.storage = (S.Delete w.storage key).2 := by
  have hget : (SingleThreadLimiter.Get S w key now).1 =
      (serveGET S w.storage ⟨GET, key, 0, 0, 0⟩ now).sent.map (fun r => (r.used, r.err)) := by
    unfold SingleThreadLimiter.Get roundTrip
    rw [hrun]
    dsimp only
    rw [serveRequest_get _ _ _ _ _ rfl]
  have hgc := (serve_recv_calls S w ⟨GET, key, 0, 0, 0⟩ now now hrun).1
  rw [serveRequest_get _ _ _ _ _ rfl] at hgc
  dsimp only at hgc
  rw [(serveGET_frame S w.storage ⟨GET, key, 0, 0, 0⟩ now).1] at hgc
  have hdc := serve_recv_calls S w ⟨DELETE, key, 0, 0, 0⟩ 0 0 hrun
  rw [serveRequest_delete _ _ _ _ _ rfl] at hdc
  dsimp only at hdc
  refine ⟨hget, ?_, ?_, ?_, ?_, ?_⟩
  · unfold SingleThreadLimiter.Get roundTrip
    rw [hrun]
    exact hgc
  · intro e he
    rw [hget, serveGET_err S w.storage ⟨GET, key, 0, 0, 0⟩ now e
      (getTokenBucket_of_err S w.storage key e he)]
    rfl
  · unfold SingleThreadLimiter.Delete roundTrip
    rw [hrun]
    dsimp only
    rw [serveRequest_delete _ _ _ _ _ rfl]
    rfl
  · unfold SingleThreadLimiter.Delete roundTrip
    rw [hrun]
    exact hdc.1
  · unfold SingleThreadLimiter.Delete roundTrip
    rw [hrun]
    exact hdc.2

/-- C16 on the in-memory store: `Get` of a key the store does not hold returns
`redis.ErrNil` after one read; `Delete` of a stored key returns nil after one
`Delete` and the store is empty. -/
theorem get_delete_forward_witness :
    (SingleThreadLimiter.Get memStorage
      (Worker.start [("k", ⟨1, 2000000000, 10, 10000000000⟩, 10000000000)]) "j"
      3000000000).1 = some (0, some Error.ErrNil) ∧
    (SingleThreadLimiter.Delete memStorage
      (Worker.start [("k", ⟨1, 2000000000, 10, 10000000000⟩, 10000000000)]) "k").1 =
      some none ∧
    (SingleThreadLimiter.Delete memStorage
      (Worker.start [("k", ⟨1, 2000000000, 10, 10000000000⟩, 10000000000)]) "k").2.calls =
      [StoreCall.Delete "k"] ∧
    (SingleThreadLimiter.Delete memStorage
      (Worker.start [("k", ⟨1, 2000000000, 10, 10000000000⟩, 10000000000)]) "k").2.storage =
      [] := by
  have hj := get_delete_forward memStorage
    (Worker.start [("k", ⟨1, 2000000000, 10, 10000000000⟩, 10000000000)]) "j" 3000000000 rfl
  have hk := get_delete_forward memStorage
    (Worker.start [("k", ⟨1, 2000000000, 10, 10000000000⟩, 10000000000)]) "k" 3000000000 rfl
  refine ⟨hj.2.2.1 Error.ErrNil (by simp [memStorage, Worker.start, List.lookup]), ?_, ?_, ?_⟩
  · rw [hk.2.2.2.1]
    rfl
  · rw [hk.2.2.2.2.1]
    rfl
  · rw [hk.2.2.2.2.2]
    simp [memStorage, Worker.start]

/-- C16 fails as stated: the key `""` is blank, and `Post` refuses it with
`ErrKeyEmpty`; yet `Get("")` reaches the worker and the store and returns the
store's `redis.ErrNil`, and `Delete(" ")` reaches the worker and the store and
returns nil. -/
theorem get_delete_forward_counterexample :
    (TrimSpace "").length = 0 ∧ (TrimSpace " ").length = 0 ∧
    checkPostArgs "" 1 10 Second = some Error.ErrKeyEmpty ∧
    (SingleThreadLimiter.Get memStorage (Worker.start []) "" 2000000000).1 =
      some (0, some Error.ErrNil) ∧
    (SingleThreadLimiter.Get memStorage (Worker.start []) "" 2000000000).2.calls =
      [StoreCall.Get ""] ∧
    (SingleThreadLimiter.Delete memStorage (Worker.start []) " ").1 = some none ∧
    (SingleThreadLimiter.Delete memStorage (Worker.start []) " ").2.calls =
      [StoreCall.Delete " "] := by
  have hrun : (Worker.start ([] : MemStore)).status = Status.Running := rfl
  have hgc := (serve_recv_calls memStorage (Worker.start ([] : MemStore)) ⟨GET, "", 0, 0, 0⟩
    2000000000 2000000000 hrun).1
  have hdc := (serve_recv_calls memStorage (Worker.start ([] : MemStore)) ⟨DELETE, " ", 0, 0, 0⟩
    0 0 hrun).1
  have hsg : serveRequest memStorage (Worker.start ([] : MemStore)).storage ⟨GET, "", 0, 0, 0⟩
      2000000000 2000000000 =
      ⟨[], some ⟨0, some Error.ErrNil⟩, [StoreCall.Get ""], Signal.cont⟩ := by
    have hg : GetTokenBucket memStorage (Worker.start ([] : MemStore)).storage
        (⟨GET, "", 0, 0, 0⟩ : request).key = (none, some Error.ErrNil) :=
      getTokenBucket_of_err memStorage _ _ Error.ErrNil rfl
    rw [serveRequest_get _ _ _ _ _ rfl, serveGET_err memStorage _ _ _ Error.ErrNil hg]
    rfl
  have hsd : serveRequest memStorage (Worker.start ([] : MemStore)).storage
      ⟨DELETE, " ", 0, 0, 0⟩ 0 0 =
      ⟨[], some ⟨0, none⟩, [StoreCall.Delete " "], Signal.normal⟩ := by
    rw [serveRequest_delete _ _ _ _ _ rfl]
    rfl
  rw [hsg] at hgc
  rw [hsd] at hdc
  refine ⟨by decide, by decide, by decide, ?_, ?_, ?_, ?_⟩
  · unfold SingleThreadLimiter.Get roundTrip
    rw [hrun]
    dsimp only
    rw [hsg]
    rfl
  · unfold SingleThreadLimiter.Get roundTrip
    rw [hrun]
    exact hgc
  · unfold SingleThreadLimiter.Delete roundTrip
    rw [hrun]
    dsimp only
    rw [hsd]
    rfl
  · unfold SingleThreadLimiter.Delete roundTrip
    rw [hrun]
    exact hdc

/-- The bucket the POST branch consumes from has a `Used` that is not negative
when the stored bucket, if there is one, has. -/
theorem postBucket_used_nonneg (bucket : Option TokenBucket) (limit : ℚ) (duration : Duration)
    (tNew : Time) (h : ∀ b, bucket = some b → 0 ≤ b.Used) :
    0 ≤ (postBucket bucket limit duration tNew).Used := by
  unfold postBucket
  cases bucket with
  | none => exact le_refl _
  | some b =>
    dsimp only
    split_ifs
    · exact le_refl _
    · exact h b rfl

/-- Every `Setex` issued while a request is served carries a bucket whose
`Used` is within its `Limit`. -/
theorem serveRequest_setex_bound {σ : Type} (S : RedisStorage σ) (st : σ) (req : request)
    (tNew now : Time) (k : String) (v : TokenBucket) (ex : Duration)
    (h : StoreCall.Setex k v ex ∈ (serveRequest S st req tNew now).calls) :
    v.Used ≤ v.Limit := by
  by_cases hg : req.method = GET
  · rw [serveRequest_get S st req tNew now hg] at h
    dsimp only at h
    rw [(serveGET_frame S st req now).1] at h
    simp at h
  · by_cases hd : req.method = DELETE
    · rw [serveRequest_delete S st req tNew now hd] at h
      simp at h
    · by_cases hp : req.method = POST
      · rw [serveRequest_post S st req tNew now hp] at h
        dsimp only at h
        obtain ⟨hnone, hv, _, _⟩ := servePOST_setex S st req tNew now k v ex h
        obtain ⟨hle, hcn⟩ := consume_none _ _ _ hnone
        rw [hv, hcn]
        exact hle
      · rw [serveRequest_default S st req tNew now hg hp hd] at h
        simp at h

/-- Whatever events a worker receives, the `Setex` calls it records carry
buckets whose `Used` is within their `Limit`, if those recorded before do. -/
theorem serve_setex_bound {σ : Type} (S : RedisStorage σ) (evs : List Event) (w : Worker σ)
    (hw : ∀ k v ex, StoreCall.Setex k v ex ∈ w.calls → v.Used ≤ v.Limit) :
    ∀ k v ex, StoreCall.Setex k v ex ∈ (serve S evs w).calls → v.Used ≤ v.Limit := by
  induction evs generalizing w with
  | nil => exact hw
  | cons ev evs ih =>
    by_cases hrun : w.status = Status.Running
    · have hstep : ∀ k v ex, StoreCall.Setex k v ex ∈ (selectStmt S w ev).1.calls →
          v.Used ≤ v.Limit := by
        intro k v ex hmem
        cases ev with
        | stop => exact hw k v ex hmem
        | recv req tNew now =>
          simp only [selectStmt, caseBody, List.mem_append] at hmem
          rcases hmem with h | h
          · exact hw k v ex h
          · exact serveRequest_setex_bound S w.storage req tNew now k v ex h
      rw [serve, hrun]
      dsimp only
      rcases hsel : selectStmt S w ev with ⟨w1, sig⟩
      rw [hsel] at hstep
      cases sig with
      | normal => exact ih w1 hstep
      | cont => exact ih w1 hstep
      | brk => exact hstep
      | panicked => exact hstep
    · rw [serve_not_running S _ w hrun]
      exact hw

/-- A `Post` that returns a nil error had its arguments accepted and was served
by a running worker. -/
theorem post_nil_error {σ : Type} (S : RedisStorage σ) (w : Worker σ) (key : String)
    (count limit : Int) (duration : Duration) (tNew now : Time) (u : Int)
    (hret : (SingleThreadLimiter.Post S w key count limit duration tNew now).1 =
      some (u, none)) :
    checkPostArgs key count limit duration = none ∧ w.status = Status.Running := by
  constructor
  · cases hc : checkPostArgs key count limit duration with
    | none => rfl
    | some err =>
      unfold SingleThreadLimiter.Post at hret
      rw [hc] at hret
      simp at hret
  · cases hc : checkPostArgs key count limit duration with
    | some err =>
      unfold SingleThreadLimiter.Post at hret
      rw [hc] at hret
      simp at hret
    | none =>
      unfold SingleThreadLimiter.Post roundTrip at hret
      rw [hc] at hret
      cases hs : w.status with
      | Running => rfl
      | Stopped =>
        rw [hs] at hret
        simp at hret
      | Crashed =>
        rw [hs] at hret
        simp at hret

/-- C18: a `Post` that returns usage `u` and a nil error, on a store whose
bucket for the key, if there is one, has `Used >= 0`, has written one bucket to
the store, with `count <= Used <= Limit = limit`, and `u`, the ceiling of that
`Used`, has `count <= u <= limit`. And whatever events a worker receives from
its start, every bucket it hands to `Setex` has `Used <= Limit`. -/
theorem post_within_limit {σ : Type} (S : RedisStorage σ) (w : Worker σ) (key : String)
    (count limit : Int) (duration : Duration) (tNew now : Time) (u : Int)
    (hstored : ∀ b, (GetTokenBucket S w.storage key).1 = some b → 0 ≤ b.Used)
    (hret : (SingleThreadLimiter.Post S w key count limit duration tNew now).1 =
      some (u, none)) :
    (∃ v : TokenBucket,
      (SingleThreadLimiter.Post S w key count limit duration tNew now).2.calls =
        w.calls ++ [StoreCall.Get key, StoreCall.Setex key v duration] ∧
      (SingleThreadLimiter.Post S w key count limit duration tNew now).2.storage =
        (S.Setex w.storage key v duration).2 ∧
      (count : ℚ) ≤ v.Used ∧ v.Used ≤ v.Limit ∧ v.Limit = (limit : ℚ) ∧ u = ⌈v.Used⌉) ∧
    count ≤ u ∧ u ≤ limit ∧
    (∀ (evs : List Event) (k : String) (v : TokenBucket) (ex : Duration),
      StoreCall.Setex k v ex ∈ (serve S evs (Worker.start w.storage)).calls →
      v.Used ≤ v.Limit) := by
  obtain ⟨hargs, hrun⟩ := post_nil_error S w key count limit duration tNew now u hret
  have hpost := post_running S w key count limit duration tNew now hargs hrun
  have hwk := post_worker S w key count limit duration tNew now hargs hrun
  rw [hpost] at hret
  have hna : ¬ ((GetTokenBucket S w.storage key).2 ≠ none ∧
      (GetTokenBucket S w.storage key).2 ≠ some Error.ErrNil) := by
    intro ha
    rw [servePOST_abort S w.storage ⟨POST, key, count, limit, duration⟩ tNew now ha] at hret
    simp at hret
    exact ha.1 hret.2
  have hcons : ((postBucket (GetTokenBucket S w.storage key).1 (limit : ℚ) duration
      tNew).Consume (count : ℚ) now).1 = none := by
    by_contra hc
    rw [servePOST_fail S w.storage ⟨POST, key, count, limit, duration⟩ tNew now hna hc] at hret
    simp at hret
  have hok := servePOST_ok S w.storage ⟨POST, key, count, limit, duration⟩ tNew now hna hcons
  dsimp only at hok
  obtain ⟨hle, hcn⟩ := consume_none _ _ _ hcons
  have hp := postBucket_params (GetTokenBucket S w.storage key).1 (limit : ℚ) duration tNew
  have hnn := getAdjustedUsage_nonneg
    (postBucket (GetTokenBucket S w.storage key).1 (limit : ℚ) duration tNew) now
    (postBucket_used_nonneg _ _ _ _ hstored)
  have hvu : (count : ℚ) ≤ ((postBucket (GetTokenBucket S w.storage key).1 (limit : ℚ)
      duration tNew).Consume (count : ℚ) now).2.Used := by
    rw [hcn]
    dsimp only
    linarith
  have hvl : ((postBucket (GetTokenBucket S w.storage key).1 (limit : ℚ)
      duration tNew).Consume (count : ℚ) now).2.Used ≤ (limit : ℚ) := by
    rw [hcn]
    exact le_of_le_of_eq hle hp.1
  have hvlim : ((postBucket (GetTokenBucket S w.storage key).1 (limit : ℚ)
      duration tNew).Consume (count : ℚ) now).2.Limit = (limit : ℚ) := by
    rw [hcn]
    exact hp.1
  have hu : u = ⌈((postBucket (GetTokenBucket S w.storage key).1 (limit : ℚ)
      duration tNew).Consume (count : ℚ) now).2.Used⌉ := by
    rw [hok] at hret
    dsimp only at hret
    split_ifs at hret with hw
    · simp at hret
      exact absurd hret.2 hw
    · simp [usage] at hret
      exact hret.symm
  refine ⟨⟨_, ?_, ?_, hvu, ?_, hvlim, hu⟩, ?_, ?_, ?_⟩
  · rw [hwk.2.2, hok]
  · rw [hwk.1, hok]
  · rw [hvlim]
    exact hvl
  · rw [hu]
    have := Int.ceil_mono hvu
    rwa [Int.ceil_intCast] at this
  · rw [hu]
    exact Int.ceil_le.mpr hvl
  · intro evs k v ex hmem
    exact serve_setex_bound S evs (Worker.start w.storage) (by simp [Worker.start]) k v ex hmem

/-- C18 on the in-memory store: a `Post` of 3 units with limit 10, five seconds
into the ten second window of a stored bucket with `Used = 7`, returns
`(5, nil)` and writes a bucket with `Used = 5`, between the count and the limit. -/
theorem post_within_limit_witness :
    (SingleThreadLimiter.Post memStorage
      (Worker.start [("k", ⟨7, 2000000000, 10, 10000000000⟩, 10000000000)]) "k" 3 10
      10000000000 7000000000 7000000000).1 = some (5, none) ∧
    (3 : Int) ≤ 5 ∧ (5 : Int) ≤ 10 ∧
    (∃ v : TokenBucket,
      (SingleThreadLimiter.Post memStorage
        (Worker.start [("k", ⟨7, 2000000000, 10, 10000000000⟩, 10000000000)]) "k" 3 10
        10000000000 7000000000 7000000000).2.calls =
        [StoreCall.Get "k", StoreCall.Setex "k" v 10000000000] ∧
      (3 : ℚ) ≤ v.Used ∧ v.Used ≤ 10) := by
  have hget : memStorage.Get (Worker.start
      [("k", (⟨7, 2000000000, 10, 10000000000⟩ : TokenBucket), (10000000000 : Duration))]).storage
      "k" = (some (Data.gob ⟨7, 2000000000, 10, 10000000000⟩), none) := by
    simp [memStorage, Worker.start, List.lookup]
  have hg := getTokenBucket_of_gob memStorage _ _ _ hget
  have hpb : postBucket (some (⟨7, 2000000000, 10, 10000000000⟩ : TokenBucket)) ((10 : Int) : ℚ)
      10000000000 7000000000 = ⟨7, 2000000000, 10, 10000000000⟩ := by
    norm_num [postBucket]
  have hcons : (TokenBucket.Consume ⟨7, 2000000000, 10, 10000000000⟩ ((3 : Int) : ℚ)
      7000000000) = (none, ⟨5, 7000000000, 10, 10000000000⟩) := by
    rw [consume_of_le] <;>
      norm_num [TokenBucket.GetAdjustedUsage, Time.Unix, Time.Sub, minDuration, maxDuration]
  have hok := servePOST_ok memStorage (Worker.start
      [("k", (⟨7, 2000000000, 10, 10000000000⟩ : TokenBucket), (10000000000 : Duration))]).storage
    ⟨POST, "k", 3, 10, 10000000000⟩ 7000000000 7000000000
    (by rw [hg]; simp) (by rw [hg]; dsimp only; rw [hpb, hcons])
  rw [hg] at hok
  dsimp only at hok
  rw [hpb, hcons] at hok
  have hret : (SingleThreadLimiter.Post memStorage
      (Worker.start [("k", ⟨7, 2000000000, 10, 10000000000⟩, 10000000000)]) "k" 3 10
      10000000000 7000000000 7000000000).1 = some (5, none) := by
    rw [post_running _ _ _ _ _ _ _ _ (by decide) rfl, hok]
    simp [memStorage, usage]
  have h := post_within_limit memStorage
    (Worker.start [("k", ⟨7, 2000000000, 10, 10000000000⟩, 10000000000)]) "k" 3 10
    10000000000 7000000000 7000000000 5
    (by
      intro b hb
      rw [hg] at hb
      simp only [Option.some.injEq] at hb
      rw [← hb]
      norm_num)
    hret
  obtain ⟨⟨v, hcalls, _, hv1, hv2, hv3, _⟩, h3, h5, _⟩ := h
  refine ⟨hret, h3, h5, v, ?_, by exact_mod_cast hv1, ?_⟩
  · rw [hcalls]
    rfl
  · rw [hv3] at hv2
    exact_mod_cast hv2

/-- Elapsed time does not shrink as the clock moves on. -/
theorem sub_mono (t1 t2 u : Int) (h : t1 ≤ t2) : Time.Sub t1 u ≤ Time.Sub t2 u := by
  unfold Time.Sub minDuration maxDuration Duration
  split_ifs <;> linarith

/-- The decay term grows with the elapsed time when limit and duration are positive. -/
theorem back_mono (limit : ℚ) (d e1 e2 : Int) (hl : 0 < limit) (hd : 0 < d) (h : e1 ≤ e2) :
    limit * (e1 : ℚ) / (d : ℚ) ≤ limit * (e2 : ℚ) / (d : ℚ) := by
  have hdq : (0 : ℚ) < (d : ℚ) := by exact_mod_cast hd
  have he : (e1 : ℚ) ≤ (e2 : ℚ) := by exact_mod_cast h
  exact div_le_div_of_nonneg_right (mul_le_mul_of_nonneg_left he hl.le) hdq.le

/-- C19, as amended: for a bucket with `Limit > 0`, `Duration > 0` and
`LastAccessTime` set, `GetAdjustedUsage` does not increase with `now`, and for
every `now` at or after `LastAccessTime` it is at most `max(0, Used)`, hence at
most `Used` when `Used` is not negative. -/
theorem usage_leaks_away (b : TokenBucket) (now1 now2 : Time) (hl : 0 < b.Limit)
    (hd : 0 < b.Duration) (hs : 0 < b.LastAccessTime.Unix) :
    (now1 ≤ now2 → (b.GetAdjustedUsage now2).1 ≤ (b.GetAdjustedUsage now1).1) ∧
    (b.LastAccessTime ≤ now1 → (b.GetAdjustedUsage now1).1 ≤ max 0 b.Used) ∧
    (0 ≤ b.Used → b.LastAccessTime ≤ now1 → (b.GetAdjustedUsage now1).1 ≤ b.Used) := by
  have hback : b.LastAccessTime ≤ now1 →
      0 ≤ b.Limit * ((Time.Sub now1 b.LastAccessTime : Int) : ℚ) / (b.Duration : ℚ) := by
    intro h
    have h0 : (0 : ℚ) ≤ ((Time.Sub now1 b.LastAccessTime : Int) : ℚ) := by
      exact_mod_cast sub_nonneg_of_le now1 b.LastAccessTime h
    have hdq : (0 : ℚ) < (b.Duration : ℚ) := by exact_mod_cast hd
    exact div_nonneg (mul_nonneg hl.le h0) hdq.le
  refine ⟨?_, ?_, ?_⟩
  · intro h
    rw [getAdjustedUsage_set b now2 hs, getAdjustedUsage_set b now1 hs]
    have := back_mono b.Limit b.Duration _ _ hl hd (sub_mono now1 now2 b.LastAccessTime h)
    exact max_le_max (le_refl _) (by linarith)
  · intro h
    rw [getAdjustedUsage_set b now1 hs]
    exact max_le_max (le_refl _) (by linarith [hback h])
  · intro hu h
    rw [getAdjustedUsage_set b now1 hs]
    exact max_le hu (by linarith [hback h])

/-- C19 at a concrete bucket: `Used = 7`, limit 10, a ten second window; the
adjusted usage three seconds in is at most the one a second in, which is at
most `Used`. -/
theorem usage_leaks_away_witness :
    (TokenBucket.GetAdjustedUsage ⟨7, 2000000000, 10, 10000000000⟩ 5000000000).1 ≤
      (TokenBucket.GetAdjustedUsage ⟨7, 2000000000, 10, 10000000000⟩ 3000000000).1 ∧
    (TokenBucket.GetAdjustedUsage ⟨7, 2000000000, 10, 10000000000⟩ 3000000000).1 ≤ 7 := by
  have h := usage_leaks_away ⟨7, 2000000000, 10, 10000000000⟩ 3000000000 5000000000
    (by norm_num) (by decide) (by decide)
  exact ⟨h.1 (by decide), h.2.2 (by norm_num) (by decide)⟩

/-- C19 fails as stated: a bucket with `Used = -1`, limit 10, a ten second
window and `LastAccessTime` set has adjusted usage 0, above its `Used`, a second
after `LastAccessTime`. -/
theorem usage_leaks_away_counterexample :
    (0 : ℚ) < (⟨-1, 2000000000, 10, 10000000000⟩ : TokenBucket).Limit ∧
    (0 : Int) < (⟨-1, 2000000000, 10, 10000000000⟩ : TokenBucket).Duration ∧
    (0 : Int) < Time.Unix 2000000000 ∧ (2000000000 : Int) ≤ 3000000000 ∧
    (TokenBucket.GetAdjustedUsage ⟨-1, 2000000000, 10, 10000000000⟩ 3000000000).1 = 0 ∧
    ¬ (TokenBucket.GetAdjustedUsage ⟨-1, 2000000000, 10, 10000000000⟩ 3000000000).1 ≤
      (⟨-1, 2000000000, 10, 10000000000⟩ : TokenBucket).Used := by
  have hg : (TokenBucket.GetAdjustedUsage ⟨-1, 2000000000, 10, 10000000000⟩ 3000000000).1
      = 0 := by
    norm_num [TokenBucket.GetAdjustedUsage, Time.Unix, Time.Sub, minDuration, maxDuration]
  refine ⟨by norm_num, by decide, by decide, by decide, hg, ?_⟩
  rw [hg]
  norm_num

/-- The GET branch with a nil bucket and a nil error: nothing is sent and the
goroutine panics. -/
theorem serveGET_nil {σ : Type} (S : RedisStorage σ) (st : σ) (req : request) (now : Time)
    (h : GetTokenBucket S st req.key = (none, none)) :
    serveGET S st req now = ⟨st, none, [StoreCall.Get req.key], Signal.panicked⟩ := by
  unfold serveGET
  rw [h]
  simp

/-- C20 on the code: on a store whose read returns nil data and a nil error,
`GetTokenBucket` returns `(nil, nil)`; the GET branch then dereferences the nil
bucket: no response is sent, the worker is dead and the caller of `Get` waits
for ever. The POST branch on the same store makes a new bucket and answers
`(1, nil)`. The same holds for every store and key whose read gives `(nil, nil)`. -/
theorem get_nil_bucket_panics :
    GetTokenBucket nilDataStore [] "k" = (none, none) ∧
    (serveRequest nilDataStore [] ⟨GET, "k", 0, 0, 0⟩ 2000000000 2000000000).sent = none ∧
    (serveRequest nilDataStore [] ⟨GET, "k", 0, 0, 0⟩ 2000000000 2000000000).signal =
      Signal.panicked ∧
    serve nilDataStore [Event.recv ⟨GET, "k", 0, 0, 0⟩ 2000000000 2000000000]
      (Worker.start []) = ⟨[], Status.Crashed, [], [StoreCall.Get "k"]⟩ ∧
    (SingleThreadLimiter.Get nilDataStore (Worker.start []) "k" 2000000000).1 = none ∧
    (serveRequest nilDataStore [] ⟨POST, "k", 1, 10, 10000000000⟩ 2000000000
      2000000000).sent = some ⟨1, none⟩ ∧
    (∀ (S : RedisStorage MemStore) (st : MemStore) (req : request) (tNew now : Time),
      req.method = GET → S.Get st req.key = (none, none) →
      (serveRequest S st req tNew now).sent = none ∧
        (serveRequest S st req tNew now).signal = Signal.panicked) := by
  have hg : GetTokenBucket nilDataStore ([] : MemStore) "k" = (none, none) := by
    simp [GetTokenBucket, nilDataStore]
  have hreq : serveRequest nilDataStore ([] : MemStore) ⟨GET, "k", 0, 0, 0⟩ 2000000000
      2000000000 = ⟨[], none, [StoreCall.Get "k"], Signal.panicked⟩ := by
    rw [serveRequest_get _ _ _ _ _ rfl, serveGET_nil nilDataStore _ _ _ hg]
    rfl
  refine ⟨hg, by rw [hreq], by rw [hreq], ?_, ?_, ?_, ?_⟩
  · rw [serve]
    simp only [Worker.start, selectStmt, caseBody, hreq]
    rfl
  · unfold SingleThreadLimiter.Get roundTrip
    simp only [Worker.start, hreq]
    rfl
  · have hcons : (NewTokenBucket ((10 : Int) : ℚ) 10000000000 2000000000).Consume
        ((1 : Int) : ℚ) 2000000000 = (none, ⟨1, 2000000000, 10, 10000000000⟩) := by
      rw [consume_of_le] <;>
        norm_num [NewTokenBucket, TokenBucket.GetAdjustedUsage, Time.Unix, Time.Sub,
          minDuration, maxDuration]
    have hgp : GetTokenBucket nilDataStore ([] : MemStore)
        (⟨POST, "k", 1, 10, 10000000000⟩ : request).key = (none, none) := hg
    rw [serveRequest_post _ _ _ _ _ rfl,
      servePOST_ok nilDataStore _ ⟨POST, "k", 1, 10, 10000000000⟩ _ _
        (by rw [hgp]; simp) (by rw [hgp]; simp only [postBucket]; rw [hcons])]
    rw [hgp]
    simp only [postBucket]
    rw [hcons]
    simp [nilDataStore, memStorage, usage]
  · intro S st req tNew now hm hget
    have hgn : GetTokenBucket S st req.key = (none, none) := by
      unfold GetTokenBucket
      rw [hget]
      simp
    rw [serveRequest_get S st req tNew now hm, serveGET_nil S st req now hgn]
    exact ⟨rfl, rfl⟩

end RedisRatelimit
